import Mathlib

/-!
Verification development for the `mk-timeline` repository.

The single source file `validation.py` validates a tabular dataset of
"marbles", battles and lifecycle events.  This file gives a shallow
embedding of that script in Lean: Python floats that hold time values are
modelled as rationals, Python ints as integers, CSV rows as structures of
strings, and each fallible validation step returns an `Except` value whose
error constructor mirrors the exception the script would raise.

Modelling notes on external collaborators (Python builtins used by the
script):
* `int(s)` is modelled by `pyInt` as an optional sign followed by decimal
  digits (the builtin also accepts surrounding whitespace and underscore
  separators; no input in this development uses those).
* `float(s)` is modelled by `pyFloat` as an optional sign, decimal digits,
  and an optional fractional part (the builtin also accepts exponents and
  special values; no input in this development uses those).
* `bool(s)` is modelled by `pyBool`: it is true exactly for non-empty
  strings and never fails.
* string formatting of seconds with one fractional digit rounds the value
  to the nearest tenth; the model rounds half up, the builtin rounds the
  underlying double, which agrees on every value whose tenths are exact.
-/

namespace MKTimeline

/-! ## Characters and decimal digits -/

def toDigitChar (d : ℕ) : Char :=
  match d with
  | 0 => '0'
  | 1 => '1'
  | 2 => '2'
  | 3 => '3'
  | 4 => '4'
  | 5 => '5'
  | 6 => '6'
  | 7 => '7'
  | 8 => '8'
  | 9 => '9'
  | _ => '*'

def digitVal (c : Char) : Option ℕ :=
  if c.isDigit then some (c.toNat - 48) else none

/-- Decimal rendering with explicit fuel, so that the definition is
structurally recursive and reduces inside the kernel.  The fuel used by
`natChars` always suffices, since a number needs at most `n + 1` digits. -/
def natCharsGo : ℕ → ℕ → List Char
  | 0, _ => []
  | fuel + 1, n =>
    if n < 10 then [toDigitChar n]
    else natCharsGo fuel (n / 10) ++ [toDigitChar (n % 10)]

/-- Decimal rendering of a natural number, most significant digit first. -/
def natChars (n : ℕ) : List Char := natCharsGo (n + 1) n

/-- Accumulating decimal parser: consumes digits, fails on anything else. -/
def parseNatGo : List Char → ℕ → Option ℕ
  | [], acc => some acc
  | c :: rest, acc =>
    match digitVal c with
    | some d => parseNatGo rest (10 * acc + d)
    | none => none

def parseNatDigits (l : List Char) : Option ℕ :=
  if l.isEmpty then none else parseNatGo l 0

/-- Model of the builtin `int` on a character list. -/
def pyIntChars (l : List Char) : Option ℤ :=
  match l with
  | [] => none
  | c :: rest =>
    if c = '-' then (parseNatDigits rest).map (fun n => -(n : ℤ))
    else if c = '+' then (parseNatDigits rest).map (fun n => (n : ℤ))
    else (parseNatDigits (c :: rest)).map (fun n => (n : ℤ))

def pyInt (s : String) : Option ℤ := pyIntChars s.data

/-- Splits a character list at the first dot, if any. -/
def breakDot : List Char → List Char × Option (List Char)
  | [] => ([], none)
  | c :: rest =>
    if c = '.' then ([], some rest)
    else
      let p := breakDot rest
      (c :: p.1, p.2)

def fracVal (l : List Char) : Option ℚ :=
  (parseNatGo l 0).map (fun n => (n : ℚ) / (10 : ℚ) ^ l.length)

def pyFloatMag (l : List Char) : Option ℚ :=
  match breakDot l with
  | (ip, none) => (parseNatDigits ip).map (fun n => (n : ℚ))
  | (ip, some fp) =>
    if ip.isEmpty && fp.isEmpty then none
    else
      match parseNatGo ip 0, fracVal fp with
      | some n, some f => some ((n : ℚ) + f)
      | _, _ => none

/-- Model of the builtin `float` on a character list. -/
def pyFloatChars (l : List Char) : Option ℚ :=
  match l with
  | [] => none
  | c :: rest =>
    if c = '-' then (pyFloatMag rest).map Neg.neg
    else if c = '+' then pyFloatMag rest
    else pyFloatMag (c :: rest)

def pyFloat (s : String) : Option ℚ := pyFloatChars s.data

/-- Model of the builtin `bool` on a string: true iff the string is non-empty. -/
def pyBool (s : String) : Bool := s ≠ ""

/-! ## Time codec (`to_numeric_time` / `to_display_time`) -/

/-- Splitting on every colon, mirroring `str.split` with a separator. -/
def splitColon : List Char → List (List Char)
  | [] => [[]]
  | c :: rest =>
    if c = ':' then [] :: splitColon rest
    else
      match splitColon rest with
      | [] => [[c]]
      | h :: t => (c :: h) :: t

def parseTimeChars (l : List Char) : Option ℚ :=
  match splitColon l with
  | [d0, d1, d2] =>
    match pyIntChars d0, pyIntChars d1, pyFloatChars d2 with
    | some h, some m, some s => some (3600 * (h : ℚ) + 60 * (m : ℚ) + s)
    | _, _, _ => none
  | _ => none

/-- Embedding of `to_numeric_time`: requires exactly three colon-separated
parts, parses hours and minutes as ints and seconds as a float, and returns
the total seconds; `none` stands for the assertion or conversion error. -/
def to_numeric_time (time : String) : Option ℚ :=
  parseTimeChars time.data

/-- Zero padding to width two, as in a `02` format specification. -/
def pad2Chars (l : List Char) : List Char :=
  if l.length ≥ 2 then l else List.replicate (2 - l.length) '0' ++ l

def intChars (i : ℤ) : List Char :=
  if i < 0 then '-' :: natChars (-i).toNat else natChars i.toNat

def padInt2 (i : ℤ) : List Char := pad2Chars (intChars i)

/-- Seconds rendered with one fractional digit and zero padding to width
four, as in a `04.1f` format specification (half-up tenth rounding). -/
def secondsChars (s : ℚ) : List Char :=
  let tenths : ℤ := ⌊10 * s + 1 / 2⌋
  if tenths < 0 then
    '-' :: (pad2Chars (natChars ((-tenths).toNat / 10)) ++
      '.' :: natChars ((-tenths).toNat % 10))
  else
    pad2Chars (natChars (tenths.toNat / 10)) ++
      '.' :: natChars (tenths.toNat % 10)

def displayChars (t : ℚ) : List Char :=
  padInt2 ⌊t / 3600⌋ ++
    ':' :: (padInt2 (Int.fmod ⌊t / 60⌋ 60) ++
      ':' :: secondsChars (t - 60 * (⌊t / 60⌋ : ℚ)))

/-- Embedding of `to_display_time`: hours are the floored quotient by 3600,
minutes the floored quotient by 60 modulo 60, seconds the remainder
modulo 60, assembled as a colon-separated zero-padded string. -/
def to_display_time (time : ℚ) : String := ⟨displayChars time⟩

/-! ## Hex codes -/

def isHexDigitUpper (c : Char) : Bool :=
  c.isDigit || ('A' ≤ c && c ≤ 'F')

/-- Embedding of `is_hex_code`: the regex hash-then-six-upper-hex-digits is
applied with `re.match`, which anchors at the start of the string only, so
the test succeeds whenever the first seven characters have that shape,
regardless of what follows.  (The regex class also admits non-ASCII decimal
digits, which no input in this development uses.) -/
def is_hex_code (value : String) : Bool :=
  match value.data with
  | [] => false
  | c :: rest =>
    if c = '#' then decide (6 ≤ rest.length) && (rest.take 6).all isHexDigitUpper
    else false

/-- Written from the specification text, not from the source: a string is
an exact hex code when it is a hash followed by exactly six uppercase
hexadecimal digits and nothing else. -/
def isExactHexCode (value : String) : Bool :=
  match value.data with
  | [] => false
  | c :: rest =>
    if c = '#' then decide (rest.length = 6) && rest.all isHexDigitUpper
    else false

def is_valid_level (value : ℤ) : Bool := value ≥ 0

/-! ## Raw rows

A CSV row as produced by `csv.DictReader`: one string per declared column.
The column sets are fixed per table, so each table's rows are modelled as a
structure of strings. -/

structure RawColorRow where
  color : String
  hexCode : String
deriving DecidableEq, Repr

structure RawMarbleRow where
  name : String
  fullName : String
  kind : String
  color : String
  finalLevel : String
  kills : String
deriving DecidableEq, Repr

structure RawBeginRow where
  time : String
  name : String
  location : String
  level : String
  kind : String
deriving DecidableEq, Repr

structure RawLevelRow where
  time : String
  name : String
  level : String
deriving DecidableEq, Repr

structure RawEndRow where
  time : String
  name : String
  location : String
  level : String
  kind : String
deriving DecidableEq, Repr

structure RawBattleRow where
  battleId : String
  beginT : String
  endT : String
deriving DecidableEq, Repr

structure RawBattleColorRow where
  battleId : String
  color : String
  isWinner : String
deriving DecidableEq, Repr

structure RawBattleMarbleRow where
  battleId : String
  name : String
deriving DecidableEq, Repr

/-- The eight tables read from the data directory. -/
structure Dataset where
  colors : List RawColorRow
  marbles : List RawMarbleRow
  begins : List RawBeginRow
  levels : List RawLevelRow
  ends : List RawEndRow
  battles : List RawBattleRow
  battleColors : List RawBattleColorRow
  battleMarbles : List RawBattleMarbleRow
deriving DecidableEq, Repr

/-! ## Typed rows after schema coercion -/

structure MarbleRow where
  name : String
  fullName : String
  kind : String
  color : String
  finalLevel : ℤ
  kills : ℤ
deriving DecidableEq, Repr

structure BeginRow where
  time : ℚ
  name : String
  location : String
  level : ℤ
  kind : String
deriving DecidableEq, Repr

structure LevelRow where
  time : ℚ
  name : String
  level : ℤ
deriving DecidableEq, Repr

structure EndRow where
  time : ℚ
  name : String
  location : String
  level : ℤ
  kind : String
deriving DecidableEq, Repr

structure BattleRow where
  battleId : String
  beginT : ℚ
  endT : ℚ
deriving DecidableEq, Repr

structure BattleColorRow where
  battleId : String
  color : String
  isWinner : Bool
deriving DecidableEq, Repr

structure BattleMarbleRow where
  battleId : String
  name : String
deriving DecidableEq, Repr

/-! ## Events and the lifecycle state machine -/

/-- One entry of the per-marble event list.  The script builds tuples whose
slot 0 is the time, slot 1 the kind string, and whose slots 2 and 3 (level
and location) exist only for begin, level and end rows; absent slots are
modelled as `none`. -/
structure Event where
  time : ℚ
  kind : String
  level : Option ℤ
  location : Option String
deriving DecidableEq, Repr

/-- The lifecycle states of the replay loop. -/
inductive MState where
  | unalive
  | alive
  | battle
  | dead
  | done
deriving DecidableEq, Repr

/-- Errors: one constructor per exception the script can raise.  A
`valueErrorEvent` is the `ValueError` naming the offending event; a
`valueErrorDone` is the `ValueError` raised for any event in the `done`
state (its message does not name the event); `assertionError` stands for a
failed bare `assert`. -/
inductive VError where
  | schemaViolation (table : String) (field : String)
  | overlapViolation (id1 : String) (id2 : String)
  | rosterViolation
  | valueErrorEvent (e : Event)
  | valueErrorDone
  | assertionError
  | finalLevelViolation (marble : String)
  | lookupError
deriving DecidableEq, Repr

/-- Embedding of one iteration of the replay loop: the nested `match` on
the current state and the event kind string.  The mutable `level` variable
starts as `None`, so it is an optional integer here; the arithmetic in the
`Level` branch needs both the tracked level and the event level to be
present (in the script a missing one would also abort the run, with a
`TypeError` or `IndexError`, which this model folds into the assertion
error). -/
def stepEvent (state : MState) (level : Option ℤ) (e : Event) :
    Except VError (MState × Option ℤ) :=
  match state with
  | .unalive =>
    if e.kind = "Born" ∨ e.kind = "Summon" then .ok (.alive, e.level)
    else .error (.valueErrorEvent e)
  | .alive =>
    if e.kind = "Begin Battle" then .ok (.battle, level)
    else if e.kind = "Survive" then
      if e.location ≠ some "BATTLE" then .ok (.done, level)
      else .error .assertionError
    else .error (.valueErrorEvent e)
  | .battle =>
    if e.kind = "End Battle" then .ok (.alive, level)
    else if e.kind = "Level" then
      match level, e.level with
      | some l, some el =>
        if el = l + 1 then .ok (.battle, some (l + 1))
        else .error .assertionError
      | _, _ => .error .assertionError
    else if e.kind = "Death" then
      if e.location = some "BATTLE" then .ok (.dead, level)
      else .error .assertionError
    else .error (.valueErrorEvent e)
  | .dead =>
    if e.kind = "Revive" then
      if level = e.level then .ok (.alive, level)
      else .error .assertionError
    else if e.kind = "End Battle" then .ok (.dead, level)
    else .error (.valueErrorEvent e)
  | .done => .error .valueErrorDone

/-- Replaying a list of events from a given state and tracked level. -/
def replayEvents : MState → Option ℤ → List Event → Except VError (MState × Option ℤ)
  | state, level, [] => .ok (state, level)
  | state, level, e :: rest =>
    match stepEvent state level e with
    | .ok (state', level') => replayEvents state' level' rest
    | .error err => .error err

/-- The check after the replay loop: the tracked level must equal the
declared final level (comparing `None` with an integer is simply false). -/
def checkMarble (events : List Event) (declaredFinal : ℤ) (marble : String) :
    Except VError Unit :=
  match replayEvents .unalive none events with
  | .ok (_, level) =>
    if level = some declaredFinal then .ok ()
    else .error (.finalLevelViolation marble)
  | .error err => .error err

/-! ## Per-table schema validation

Each schema validates the rows of a table in order and stops at the first
failing row, mirroring the `schema` library.  A `Use` coercion that raises
becomes an `Option` returning `none`, turned into a `schemaViolation`. -/

def mapExcept (f : α → Except VError β) : List α → Except VError (List β)
  | [] => .ok []
  | a :: rest =>
    match f a with
    | .ok b =>
      match mapExcept f rest with
      | .ok bs => .ok (b :: bs)
      | .error err => .error err
    | .error err => .error err

/-- Colors table: the color name is any string, the hex code must satisfy
`is_hex_code`.  The rows are kept as they are (no coercion). -/
def coerceColorRow (r : RawColorRow) : Except VError RawColorRow :=
  if is_hex_code r.hexCode then .ok r
  else .error (.schemaViolation "colors" "Hex Code")

def validateColors : List RawColorRow → Except VError (List RawColorRow) :=
  mapExcept coerceColorRow

/-- Marbles table: the color must be a known color name, final level and
kills must parse as non-negative integers. -/
def coerceMarbleRow (colorNames : List String) (r : RawMarbleRow) :
    Except VError MarbleRow :=
  if r.color ∈ colorNames then
    match pyInt r.finalLevel with
    | some fl =>
      if is_valid_level fl then
        match pyInt r.kills with
        | some k =>
          if k ≥ 0 then .ok ⟨r.name, r.fullName, r.kind, r.color, fl, k⟩
          else .error (.schemaViolation "marbles" "Kills")
        | none => .error (.schemaViolation "marbles" "Kills")
      else .error (.schemaViolation "marbles" "Final Level")
    | none => .error (.schemaViolation "marbles" "Final Level")
  else .error (.schemaViolation "marbles" "Color")

def validateMarbles (colorNames : List String) :
    List RawMarbleRow → Except VError (List MarbleRow) :=
  mapExcept (coerceMarbleRow colorNames)

/-- Begin table: time parses, marble is known, the location is the literal
dash or a known marble, the level is a non-negative integer, and the type
is one of the three begin kinds. -/
def coerceBeginRow (marbleNames : List String) (r : RawBeginRow) :
    Except VError BeginRow :=
  match to_numeric_time r.time with
  | some t =>
    if r.name ∈ marbleNames then
      if r.location = "-" ∨ r.location ∈ marbleNames then
        match pyInt r.level with
        | some lvl =>
          if is_valid_level lvl then
            if r.kind = "Born" ∨ r.kind = "Summon" ∨ r.kind = "Revive" then
              .ok ⟨t, r.name, r.location, lvl, r.kind⟩
            else .error (.schemaViolation "begin" "Type")
          else .error (.schemaViolation "begin" "Level")
        | none => .error (.schemaViolation "begin" "Level")
      else .error (.schemaViolation "begin" "Location")
    else .error (.schemaViolation "begin" "Marble Name")
  | none => .error (.schemaViolation "begin" "Time")

def validateBegins (marbleNames : List String) :
    List RawBeginRow → Except VError (List BeginRow) :=
  mapExcept (coerceBeginRow marbleNames)

def coerceLevelRow (marbleNames : List String) (r : RawLevelRow) :
    Except VError LevelRow :=
  match to_numeric_time r.time with
  | some t =>
    if r.name ∈ marbleNames then
      match pyInt r.level with
      | some lvl =>
        if is_valid_level lvl then .ok ⟨t, r.name, lvl⟩
        else .error (.schemaViolation "level" "Level")
      | none => .error (.schemaViolation "level" "Level")
    else .error (.schemaViolation "level" "Marble Name")
  | none => .error (.schemaViolation "level" "Time")

def validateLevels (marbleNames : List String) :
    List RawLevelRow → Except VError (List LevelRow) :=
  mapExcept (coerceLevelRow marbleNames)

/-- End table: like the begin table except that the location may also be
the literal marker for a battle, and the type is a death or a survival. -/
def coerceEndRow (marbleNames : List String) (r : RawEndRow) :
    Except VError EndRow :=
  match to_numeric_time r.time with
  | some t =>
    if r.name ∈ marbleNames then
      if r.location = "BATTLE" ∨ r.location = "-" ∨ r.location ∈ marbleNames then
        match pyInt r.level with
        | some lvl =>
          if is_valid_level lvl then
            if r.kind = "Death" ∨ r.kind = "Survive" then
              .ok ⟨t, r.name, r.location, lvl, r.kind⟩
            else .error (.schemaViolation "end" "Type")
          else .error (.schemaViolation "end" "Level")
        | none => .error (.schemaViolation "end" "Level")
      else .error (.schemaViolation "end" "Location")
    else .error (.schemaViolation "end" "Marble Name")
  | none => .error (.schemaViolation "end" "Time")

def validateEnds (marbleNames : List String) :
    List RawEndRow → Except VError (List EndRow) :=
  mapExcept (coerceEndRow marbleNames)

def coerceBattleRow (r : RawBattleRow) : Except VError BattleRow :=
  match to_numeric_time r.beginT, to_numeric_time r.endT with
  | some b, some e => .ok ⟨r.battleId, b, e⟩
  | _, _ => .error (.schemaViolation "battles" "Begin")

def validateBattles : List RawBattleRow → Except VError (List BattleRow) :=
  mapExcept coerceBattleRow

/-- Battle-colors table: battle and color must be known.  The winner flag
is coerced with the builtin `bool`, which succeeds on every string, so no
row is ever rejected on that field. -/
def coerceBattleColorRow (battleIds colorNames : List String)
    (r : RawBattleColorRow) : Except VError BattleColorRow :=
  if r.battleId ∈ battleIds then
    if r.color ∈ colorNames then
      .ok ⟨r.battleId, r.color, pyBool r.isWinner⟩
    else .error (.schemaViolation "battle-colors" "Color")
  else .error (.schemaViolation "battle-colors" "Battle Id")

def validateBattleColors (battleIds colorNames : List String) :
    List RawBattleColorRow → Except VError (List BattleColorRow) :=
  mapExcept (coerceBattleColorRow battleIds colorNames)

def coerceBattleMarbleRow (battleIds marbleNames : List String)
    (r : RawBattleMarbleRow) : Except VError BattleMarbleRow :=
  if r.battleId ∈ battleIds then
    if r.name ∈ marbleNames then .ok ⟨r.battleId, r.name⟩
    else .error (.schemaViolation "battle-marbles" "Marble Name")
  else .error (.schemaViolation "battle-marbles" "Battle Id")

def validateBattleMarbles (battleIds marbleNames : List String) :
    List RawBattleMarbleRow → Except VError (List BattleMarbleRow) :=
  mapExcept (coerceBattleMarbleRow battleIds marbleNames)

/-! ## Relationship checks -/

/-- Keys of a Python dict built from a row list: every distinct key once,
in order of first appearance. -/
def firstDedup : List String → List String
  | [] => []
  | a :: rest => a :: (firstDedup rest).filter (fun b => b ≠ a)

/-- Battles sorted ascending by begin time; Python's sort is stable, as is
insertion sort with a non-strict comparison. -/
def sortBattles (l : List BattleRow) : List BattleRow :=
  l.insertionSort (fun a b => a.beginT ≤ b.beginT)

/-- The pairwise loop over the sorted battle list: each battle must end
strictly before the next begins. -/
def checkOverlap : List BattleRow → Except VError Unit
  | b1 :: b2 :: rest =>
    if b1.endT < b2.beginT then checkOverlap (b2 :: rest)
    else .error (.overlapViolation b1.battleId b2.battleId)
  | _ => .ok ()

/-- The roster condition for one battle id: every participating marble row,
joined with every marbles row of the same name, must have a color among the
battle's registered colors. -/
def rosterOk (id : String) (battleColors : List BattleColorRow)
    (battleMarbles : List BattleMarbleRow) (marbleRows : List MarbleRow) : Bool :=
  (battleMarbles.filter (fun bm => bm.battleId = id)).all fun bm =>
    (marbleRows.filter (fun mr => mr.name = bm.name)).all fun mr =>
      ((battleColors.filter (fun bc => bc.battleId = id)).map
        (fun bc => bc.color)).contains mr.color

def checkRostersGo (battleColors : List BattleColorRow)
    (battleMarbles : List BattleMarbleRow) (marbleRows : List MarbleRow) :
    List String → Except VError Unit
  | [] => .ok ()
  | id :: rest =>
    if rosterOk id battleColors battleMarbles marbleRows then
      checkRostersGo battleColors battleMarbles marbleRows rest
    else .error .rosterViolation

/-- The roster loop iterates over the keys of the battles dict, which are
the battle ids in order of first appearance, before the list was sorted. -/
def checkRosters (battleRows : List BattleRow) (battleColors : List BattleColorRow)
    (battleMarbles : List BattleMarbleRow) (marbleRows : List MarbleRow) :
    Except VError Unit :=
  checkRostersGo battleColors battleMarbles marbleRows
    (firstDedup (battleRows.map (fun b => b.battleId)))

/-! ## Per-marble event assembly and replay -/

def beginEvents (marble : String) (rows : List BeginRow) : List Event :=
  (rows.filter (fun r => r.name = marble)).map
    (fun r => ⟨r.time, r.kind, some r.level, some r.location⟩)

def levelEvents (marble : String) (rows : List LevelRow) : List Event :=
  (rows.filter (fun r => r.name = marble)).map
    (fun r => ⟨r.time, "Level", some r.level, none⟩)

def endEvents (marble : String) (rows : List EndRow) : List Event :=
  (rows.filter (fun r => r.name = marble)).map
    (fun r => ⟨r.time, r.kind, some r.level, some r.location⟩)

/-- The merge of the marble's battle participations with the battles table
(an inner join on the battle id, left order outer, right order inner).  The
battles list used here is in original file order: the data frame was built
before the interval check sorted its list in place. -/
def participations (marble : String) (battleMarbles : List BattleMarbleRow)
    (battleRows : List BattleRow) : List BattleRow :=
  (battleMarbles.filter (fun bm => bm.name = marble)).flatMap
    (fun bm => battleRows.filter (fun b => b.battleId = bm.battleId))

def beginBattleEvents (marble : String) (battleMarbles : List BattleMarbleRow)
    (battleRows : List BattleRow) : List Event :=
  (participations marble battleMarbles battleRows).map
    (fun b => ⟨b.beginT, "Begin Battle", none, none⟩)

def endBattleEvents (marble : String) (battleMarbles : List BattleMarbleRow)
    (battleRows : List BattleRow) : List Event :=
  (participations marble battleMarbles battleRows).map
    (fun b => ⟨b.endT, "End Battle", none, none⟩)

/-- Events sorted ascending by time; stable, so same-time events keep the
append order begin, level, end, begin-battle, end-battle. -/
def sortEvents (l : List Event) : List Event :=
  l.insertionSort (fun a b => a.time ≤ b.time)

def eventsFor (marble : String) (begins : List BeginRow) (levels : List LevelRow)
    (ends : List EndRow) (battleMarbles : List BattleMarbleRow)
    (battleRows : List BattleRow) : List Event :=
  sortEvents (beginEvents marble begins ++ levelEvents marble levels ++
    endEvents marble ends ++ beginBattleEvents marble battleMarbles battleRows ++
    endBattleEvents marble battleMarbles battleRows)

/-- The final-level lookup takes the first marbles row with the given name,
as the data-frame lookup does. -/
def finalLevelOf (marbleRows : List MarbleRow) (marble : String) : Option ℤ :=
  (marbleRows.find? (fun r => r.name = marble)).map (fun r => r.finalLevel)

def checkMarblesGo (marbleRows : List MarbleRow) (begins : List BeginRow)
    (levels : List LevelRow) (ends : List EndRow)
    (battleMarbles : List BattleMarbleRow) (battleRows : List BattleRow) :
    List String → Except VError Unit
  | [] => .ok ()
  | m :: rest =>
    match finalLevelOf marbleRows m with
    | some fl =>
      match checkMarble (eventsFor m begins levels ends battleMarbles battleRows) fl m with
      | .ok _ => checkMarblesGo marbleRows begins levels ends battleMarbles battleRows rest
      | .error err => .error err
    | none => .error .lookupError

/-- The history loop iterates over the keys of the marbles dict: the marble
names in order of first appearance. -/
def checkMarbles (marbleRows : List MarbleRow) (begins : List BeginRow)
    (levels : List LevelRow) (ends : List EndRow)
    (battleMarbles : List BattleMarbleRow) (battleRows : List BattleRow) :
    Except VError Unit :=
  checkMarblesGo marbleRows begins levels ends battleMarbles battleRows
    (firstDedup (marbleRows.map (fun r => r.name)))

/-! ## The whole validation run -/

/-- Embedding of `validate`: schema validation of the eight tables in
order, then the battle-interval check, the roster check, and the per-marble
lifecycle replay; the first failure aborts the run. -/
def validate (ds : Dataset) : Except VError Unit :=
  match validateColors ds.colors with
  | .error err => .error err
  | .ok colorRows =>
    let colorNames := colorRows.map (fun r => r.color)
    match validateMarbles colorNames ds.marbles with
    | .error err => .error err
    | .ok marbleRows =>
      let marbleNames := marbleRows.map (fun r => r.name)
      match validateBegins marbleNames ds.begins with
      | .error err => .error err
      | .ok beginRows =>
        match validateLevels marbleNames ds.levels with
        | .error err => .error err
        | .ok levelRows =>
          match validateEnds marbleNames ds.ends with
          | .error err => .error err
          | .ok endRows =>
            match validateBattles ds.battles with
            | .error err => .error err
            | .ok battleRows =>
              let battleIds := battleRows.map (fun b => b.battleId)
              match validateBattleColors battleIds colorNames ds.battleColors with
              | .error err => .error err
              | .ok battleColorRows =>
                match validateBattleMarbles battleIds marbleNames ds.battleMarbles with
                | .error err => .error err
                | .ok battleMarbleRows =>
                  match checkOverlap (sortBattles battleRows) with
                  | .error err => .error err
                  | .ok _ =>
                    match checkRosters battleRows battleColorRows battleMarbleRows marbleRows with
                    | .error err => .error err
                    | .ok _ =>
                      checkMarbles marbleRows beginRows levelRows endRows
                        battleMarbleRows battleRows

/-! ## Helpers for stating the claims -/

instance {ε α : Type} [DecidableEq ε] [DecidableEq α] : DecidableEq (Except ε α) :=
  fun x y =>
    match x, y with
    | .ok a, .ok b =>
      if h : a = b then .isTrue (by rw [h]) else .isFalse (by simp [h])
    | .error e, .error f =>
      if h : e = f then .isTrue (by rw [h]) else .isFalse (by simp [h])
    | .ok _, .error _ => .isFalse (by simp)
    | .error _, .ok _ => .isFalse (by simp)

/-- The successful part of a fallible result. -/
def okPart : Except VError α → Option α
  | .ok a => some a
  | .error _ => none

/-- Whether a fallible result succeeded. -/
def isOkE : Except VError α → Bool
  | .ok _ => true
  | .error _ => false

/-- Written from the specification's transition table, row by row, on the
same event type: a defined entry gives the next state and tracked level, a
`none` is the table's catch-all LifecycleViolation (the specification also
treats a failed `require` as a violation).  The specification's abstract
kinds BeginBattle and EndBattle appear in the event stream as the strings
with a space; the table's level arithmetic presupposes a tracked level, so
entries that read it are undefined (violations) while it is unset. -/
def specStep (state : MState) (level : Option ℤ) (e : Event) :
    Option (MState × Option ℤ) :=
  match state, e.kind with
  | .unalive, "Born" => some (.alive, e.level)
  | .unalive, "Summon" => some (.alive, e.level)
  | .alive, "Begin Battle" => some (.battle, level)
  | .alive, "Survive" =>
    if e.location ≠ some "BATTLE" then some (.done, level) else none
  | .battle, "End Battle" => some (.alive, level)
  | .battle, "Level" =>
    match level, e.level with
    | some l, some el =>
      if el = l + 1 then some (.battle, some (l + 1)) else none
    | _, _ => none
  | .battle, "Death" =>
    if e.location = some "BATTLE" then some (.dead, level) else none
  | .dead, "Revive" =>
    if level = e.level then some (.alive, level) else none
  | .dead, "End Battle" => some (.dead, level)
  | _, _ => none

/-- Replay according to the specification's table. -/
def specReplay : MState → Option ℤ → List Event → Option (MState × Option ℤ)
  | state, level, [] => some (state, level)
  | state, level, e :: rest =>
    match specStep state level e with
    | some (s', l') => specReplay s' l' rest
    | none => none

/-! ## Concrete data used by individual claims -/

/-- A marble born at level 1 that survives outside a battle. -/
def c2Events : List Event :=
  [⟨0, "Born", some 1, some "-"⟩, ⟨1, "Survive", some 1, some "-"⟩]

/-- A marble born at level 1 whose stream ends inside a battle. -/
def c9Events : List Event :=
  [⟨0, "Born", some 1, some "-"⟩, ⟨1, "Begin Battle", none, none⟩]

/-- Two battles with intervals 0 to 10 and 20 to 30. -/
def c3Pass : List BattleRow := [⟨"B1", 0, 10⟩, ⟨"B2", 20, 30⟩]

/-- Two battles with overlapping intervals 0 to 10 and 5 to 15. -/
def c3Fail : List BattleRow := [⟨"B1", 0, 10⟩, ⟨"B2", 5, 15⟩]

def c4Battles : List BattleRow := [⟨"B1", 0, 1⟩]

def c4BattleColors : List BattleColorRow := [⟨"B1", "Red", true⟩]

def c4BattleMarbles : List BattleMarbleRow := [⟨"B1", "M"⟩]

/-- A participating marble whose color is not registered for the battle. -/
def c4Marbles : List MarbleRow := [⟨"M", "Em", "t", "Blue", 0, 0⟩]

/-- A dataset that validates: one color, one marble born at level 1. -/
def c8Ok : Dataset :=
  { colors := [⟨"Red", "#FF0000"⟩]
    marbles := [⟨"M", "Em", "t", "Red", "1", "0"⟩]
    begins := [⟨"00:00:00.0", "M", "-", "1", "Born"⟩]
    levels := []
    ends := []
    battles := []
    battleColors := []
    battleMarbles := [] }

/-- The same dataset with the begin table emptied: the marble has no
events at all. -/
def c8Bad: Dataset :=
  { colors := [⟨"Red", "#FF0000"⟩]
    marbles := [⟨"M", "Em", "t", "Red", "1", "0"⟩]
    begins := []
    levels := []
    ends := []
    battles := []
    battleColors := []
    battleMarbles := [] }

/-! ## Relations for the level-and-kills non-interference claim -/

/-- Whether a raw string field holds a non-negative integer. -/
def isNonnegIntStr (s : String) : Bool :=
  match pyInt s with
  | some k => decide (0 ≤ k)
  | none => false

/-- Pointwise relation between two lists of the same length. -/
def relAll {α : Type} (p : α → α → Bool) : List α → List α → Bool
  | [], [] => true
  | a :: as, b :: bs => p a b && relAll p as bs
  | _, _ => false

/-- Two raw marble rows that agree except possibly in the Kills field,
which holds a non-negative integer in both. -/
def marbleRowRelB (r1 r2 : RawMarbleRow) : Bool :=
  decide (r1.name = r2.name) && decide (r1.fullName = r2.fullName) &&
  decide (r1.kind = r2.kind) && decide (r1.color = r2.color) &&
  decide (r1.finalLevel = r2.finalLevel) &&
  isNonnegIntStr r1.kills && isNonnegIntStr r2.kills

/-- Two raw end rows that agree except possibly in the Level field, which
holds a non-negative integer in both. -/
def endRowRelB (r1 r2 : RawEndRow) : Bool :=
  decide (r1.time = r2.time) && decide (r1.name = r2.name) &&
  decide (r1.location = r2.location) && decide (r1.kind = r2.kind) &&
  isNonnegIntStr r1.level && isNonnegIntStr r2.level

/-- Two datasets that differ only in the Level field of end rows and the
Kills field of marble rows, all such values being non-negative integers in
both datasets. -/
def datasetRel (d1 d2 : Dataset) : Prop :=
  d1.colors = d2.colors ∧
  relAll marbleRowRelB d1.marbles d2.marbles = true ∧
  d1.begins = d2.begins ∧ d1.levels = d2.levels ∧
  relAll endRowRelB d1.ends d2.ends = true ∧
  d1.battles = d2.battles ∧ d1.battleColors = d2.battleColors ∧
  d1.battleMarbles = d2.battleMarbles

/-- Coerced marble rows that agree except possibly in kills. -/
def typedMarbleRel (m1 m2 : MarbleRow) : Prop :=
  m1.name = m2.name ∧ m1.fullName = m2.fullName ∧ m1.kind = m2.kind ∧
  m1.color = m2.color ∧ m1.finalLevel = m2.finalLevel

/-- Coerced end rows that agree except possibly in the level. -/
def typedEndRel (e1 e2 : EndRow) : Prop :=
  e1.time = e2.time ∧ e1.name = e2.name ∧ e1.location = e2.location ∧
  e1.kind = e2.kind ∧ (e1.kind = "Death" ∨ e1.kind = "Survive")

/-- Events that agree except possibly in the level carried by a death or
survival event. -/
def eventRel (e1 e2 : Event) : Prop :=
  e1.time = e2.time ∧ e1.kind = e2.kind ∧ e1.location = e2.location ∧
  (e1.level = e2.level ∨ e1.kind = "Death" ∨ e1.kind = "Survive")

/-- Relates two table-validation results: both fail, or both succeed with
pointwise-related rows. -/
def exceptListRel {α : Type} (R : α → α → Prop) :
    Except VError (List α) → Except VError (List α) → Prop
  | .ok l1, .ok l2 => List.Forall₂ R l1 l2
  | .error _, .error _ => True
  | _, _ => False

/-- Relates two row-coercion results: both fail, or both succeed with
related rows. -/
def exceptRel {α : Type} (R : α → α → Prop) : Except VError α → Except VError α → Prop
  | .ok x, .ok y => R x y
  | .error _, .error _ => True
  | _, _ => False

/-- A dataset with an end row, for the non-interference claim: the survive
row carries level 5 and the marble zero kills. -/
def c10A : Dataset :=
  { colors := [⟨"Red", "#FF0000"⟩]
    marbles := [⟨"M", "Em", "t", "Red", "1", "0"⟩]
    begins := [⟨"00:00:00.0", "M", "-", "1", "Born"⟩]
    levels := []
    ends := [⟨"00:00:01.0", "M", "-", "5", "Survive"⟩]
    battles := []
    battleColors := []
    battleMarbles := [] }

/-- The same dataset with the survive row's level changed to 7 and the
kill count changed to 3. -/
def c10B : Dataset :=
  { colors := [⟨"Red", "#FF0000"⟩]
    marbles := [⟨"M", "Em", "t", "Red", "1", "3"⟩]
    begins := [⟨"00:00:00.0", "M", "-", "1", "Born"⟩]
    levels := []
    ends := [⟨"00:00:01.0", "M", "-", "7", "Survive"⟩]
    battles := []
    battleColors := []
    battleMarbles := [] }

/-! ## Claim C5: the hex-code predicate -/

/-- C5, counterexample: the claim says a hex code of the wrong length is
rejected, but the regex is applied with a start-anchored match only, so the
eight-digit string below is accepted although it is not an exact
six-digit hex code. -/
theorem mk_C5_counterexample :
    is_hex_code "#ABCDEF00" = true ∧ isExactHexCode "#ABCDEF00" = false := by
  decide

/-- C5, amended: `is_hex_code` accepts a string if and only if it starts
with a hash followed by at least six uppercase hexadecimal digits; every
exact six-digit hex code is accepted and strings lacking the hash, too
short, or with a bad character among the first six digits are rejected, but
trailing characters after a valid seven-character prefix are allowed. -/
theorem mk_C5_amended (s : String) :
    is_hex_code s = true ↔
      ∃ d rest, s.data = '#' :: (d ++ rest) ∧ d.length = 6 ∧
        ∀ c ∈ d, isHexDigitUpper c = true := by
  obtain ⟨l⟩ := s
  cases l with
  | nil => simp [is_hex_code]
  | cons c cs =>
    by_cases hc : c = '#'
    · subst hc
      constructor
      · intro h
        have h' : (decide (6 ≤ cs.length) && (cs.take 6).all isHexDigitUpper) = true := by
          simpa [is_hex_code] using h
        rw [Bool.and_eq_true, decide_eq_true_eq, List.all_eq_true] at h'
        obtain ⟨hlen, hall⟩ := h'
        exact ⟨cs.take 6, cs.drop 6, by simp,
          by simp [List.length_take, Nat.min_eq_left hlen], hall⟩
      · rintro ⟨d, rest, hdata, hdlen, hall⟩
        have hcs : cs = d ++ rest := by
          simpa using congrArg List.tail hdata
        subst hcs
        show (if ('#' : Char) = '#' then
          decide (6 ≤ (d ++ rest).length) && ((d ++ rest).take 6).all isHexDigitUpper
          else false) = true
        rw [if_pos rfl, Bool.and_eq_true, decide_eq_true_eq, List.all_eq_true]
        have htake : (d ++ rest).take 6 = d := by
          rw [List.take_append_of_le_length (by omega), ← hdlen, List.take_length d]
        refine ⟨by simp [List.length_append, hdlen], ?_⟩
        rw [htake]
        exact hall
    · constructor
      · intro h
        simp [is_hex_code, hc] at h
      · rintro ⟨d, rest, hdata, -, -⟩
        injection hdata with h1 _
        exact absurd h1 hc

/-! ## Claim C1: the transition table -/

theorem stepEvent_eq_specStep (s : MState) (lv : Option ℤ) (e : Event) :
    okPart (stepEvent s lv e) = specStep s lv e := by
  cases s <;> simp only [stepEvent, specStep, okPart] <;>
    (repeat' split) <;> simp_all [okPart]

theorem replayEvents_eq_specReplay (evs : List Event) (s : MState) (lv : Option ℤ) :
    okPart (replayEvents s lv evs) = specReplay s lv evs := by
  induction evs generalizing s lv with
  | nil => rfl
  | cons e rest ih =>
    have hstep := stepEvent_eq_specStep s lv e
    rw [replayEvents, specReplay]
    cases h : stepEvent s lv e with
    | ok p =>
      rw [h] at hstep
      simp only [okPart] at hstep
      rw [← hstep]
      obtain ⟨s', l'⟩ := p
      exact ih s' l'
    | error err =>
      rw [h] at hstep
      simp only [okPart] at hstep
      rw [← hstep]
      rfl

/-- C1: one iteration of the replay loop succeeds exactly when the
specification's transition table has an entry for the current state and
event kind whose requirement holds, and then produces the same next state
and tracked level; consequently replaying any time-sorted event stream
agrees with replaying it through the table (a table miss, including any
event in the done state, is the catch-all violation, while a failed
`require` surfaces as the corresponding assertion failure). -/
theorem mk_C1 :
    (∀ (s : MState) (lv : Option ℤ) (e : Event),
      okPart (stepEvent s lv e) = specStep s lv e) ∧
    (∀ (evs : List Event) (s : MState) (lv : Option ℤ),
      okPart (replayEvents s lv evs) = specReplay s lv evs) :=
  ⟨stepEvent_eq_specStep, replayEvents_eq_specReplay⟩

/-! ## Claim C7: the Is Winner coercion -/

/-- C7: the claim expects rows with an invalid boolean literal in the
Is Winner field to be rejected, but the schema coerces the field with the
builtin `bool`, which maps every non-empty string (including one that is
not a boolean literal at all, and even the literal "False") to true and
never fails; the only checks that can reject a battle-colors row are the
battle-id and color memberships. -/
theorem mk_C7_bug :
    validateBattleColors ["B1"] ["Red"] [⟨"B1", "Red", "nope"⟩]
      = .ok [⟨"B1", "Red", true⟩] ∧
    validateBattleColors ["B1"] ["Red"] [⟨"B1", "Red", "False"⟩]
      = .ok [⟨"B1", "Red", true⟩] ∧
    ∀ battleIds colorNames : List String, ∀ r : RawBattleColorRow,
      isOkE (coerceBattleColorRow battleIds colorNames r)
        = (decide (r.battleId ∈ battleIds) && decide (r.color ∈ colorNames)) := by
  refine ⟨by decide, by decide, ?_⟩
  intro battleIds colorNames r
  unfold coerceBattleColorRow
  by_cases h1 : r.battleId ∈ battleIds <;> by_cases h2 : r.color ∈ colorNames <;>
    simp [h1, h2, isOkE]

/-! ## Claim C3: battle intervals must not overlap -/

theorem checkOverlap_ok_iff (l : List BattleRow) :
    checkOverlap l = .ok () ↔ List.Chain' (fun b1 b2 => b1.endT < b2.beginT) l := by
  induction l with
  | nil => simp [checkOverlap]
  | cons b1 rest ih =>
    cases rest with
    | nil => simp [checkOverlap]
    | cons b2 rest2 =>
      rw [checkOverlap, List.chain'_cons]
      by_cases h : b1.endT < b2.beginT
      · simp only [if_pos h, ih]
        tauto
      · simp [h]

/-- C3: after sorting the battles by begin time, the interval check
succeeds exactly when every adjacent pair ends strictly before the next
begins; the two sample intervals 0-10 and 20-30 pass, while 0-10 and 5-15
fail with the overlap violation naming both battle ids. -/
theorem mk_C3 :
    (∀ l : List BattleRow, checkOverlap (sortBattles l) = .ok () ↔
      List.Chain' (fun b1 b2 => b1.endT < b2.beginT) (sortBattles l)) ∧
    checkOverlap (sortBattles c3Pass) = .ok () ∧
    checkOverlap (sortBattles c3Fail) = .error (.overlapViolation "B1" "B2") :=
  ⟨fun l => checkOverlap_ok_iff (sortBattles l), by decide, by decide⟩

/-! ## Claim C4: battle rosters -/

theorem mem_firstDedup (x : String) (l : List String) : x ∈ firstDedup l ↔ x ∈ l := by
  induction l with
  | nil => simp [firstDedup]
  | cons a rest ih =>
    rw [firstDedup]
    by_cases hx : x = a
    · simp [hx]
    · simp [hx, List.mem_filter, ih]

theorem checkRostersGo_ok_iff (bc : List BattleColorRow) (bm : List BattleMarbleRow)
    (mr : List MarbleRow) (ids : List String) :
    checkRostersGo bc bm mr ids = .ok () ↔ ∀ id ∈ ids, rosterOk id bc bm mr = true := by
  induction ids with
  | nil => simp [checkRostersGo]
  | cons id rest ih =>
    rw [checkRostersGo]
    by_cases h : rosterOk id bc bm mr
    · simp [h, ih]
    · simp [h]

theorem rosterOk_iff (id : String) (bc : List BattleColorRow)
    (bm : List BattleMarbleRow) (mr : List MarbleRow) :
    rosterOk id bc bm mr = true ↔
      ∀ b ∈ bm, b.battleId = id → ∀ m ∈ mr, m.name = b.name →
        m.color ∈ (bc.filter (fun r => r.battleId = id)).map (fun r => r.color) := by
  simp only [rosterOk, List.all_eq_true, List.mem_filter]
  constructor
  · intro h b hb hbid m hm hname
    have h1 := h b ⟨hb, by simp [hbid]⟩ m ⟨hm, by simp [hname]⟩
    simpa [List.mem_filter] using h1
  · intro h b hb m hm
    obtain ⟨hb', hbid⟩ := hb
    obtain ⟨hm', hname⟩ := hm
    have h1 := h b hb' (by simpa using hbid) m hm' (by simpa using hname)
    simpa [List.mem_filter] using h1

/-- C4: the roster check succeeds exactly when, for every entry of the
battle-marbles table whose battle id occurs in the battles table, the color
of every marbles row carrying that marble name is among the colors declared
for that battle; the concrete roster whose participating marble is blue
while the battle only registers red fails with the roster violation. -/
theorem mk_C4 :
    (∀ (battleRows : List BattleRow) (bcRows : List BattleColorRow)
      (bmRows : List BattleMarbleRow) (marbleRows : List MarbleRow),
      checkRosters battleRows bcRows bmRows marbleRows = .ok () ↔
        ∀ bm ∈ bmRows, bm.battleId ∈ battleRows.map (fun b => b.battleId) →
          ∀ mr ∈ marbleRows, mr.name = bm.name →
            mr.color ∈ ((bcRows.filter (fun bc => bc.battleId = bm.battleId)).map
              (fun bc => bc.color))) ∧
    checkRosters c4Battles c4BattleColors c4BattleMarbles c4Marbles
      = .error .rosterViolation := by
  constructor
  · intro battleRows bcRows bmRows marbleRows
    rw [checkRosters, checkRostersGo_ok_iff]
    constructor
    · intro h bm hbm hbid mr hmr hname
      have hid : bm.battleId ∈ firstDedup (battleRows.map (fun b => b.battleId)) :=
        (mem_firstDedup _ _).2 hbid
      have hro := (rosterOk_iff bm.battleId bcRows bmRows marbleRows).1 (h _ hid)
      exact hro bm hbm rfl mr hmr hname
    · intro h id hid
      rw [rosterOk_iff]
      intro b hb hbid m hm hname
      subst hbid
      exact h b hb ((mem_firstDedup _ _).1 hid) m hm hname
  · decide

/-! ## Claims C2 and C9: the final-level check after replay -/

/-- C2: for any marble whose replay of its full event list succeeds, the
check passes exactly when the tracked level equals the declared final
level, and a mismatch fails with the final-level violation. -/
theorem mk_C2 (events : List Event) (declared : ℤ) (marble : String)
    (s : MState) (lv : Option ℤ)
    (h : replayEvents .unalive none events = .ok (s, lv)) :
    (checkMarble events declared marble = .ok () ↔ lv = some declared) ∧
    (lv ≠ some declared →
      checkMarble events declared marble = .error (.finalLevelViolation marble)) := by
  unfold checkMarble
  rw [h]
  constructor
  · constructor
    · intro hok
      by_contra hne
      simp [hne] at hok
    · intro heq
      simp [heq]
  · intro hne
    simp [hne]

/-- C2, witness: a marble born at level 1 that survives ends the replay
with tracked level 1; against a declared final level of 2 the check fails
with the final-level violation. -/
theorem mk_C2_witness :
    replayEvents .unalive none c2Events = .ok (.done, some 1) ∧
    (some (1 : ℤ) ≠ some (2 : ℤ) →
      checkMarble c2Events 2 "M" = .error (.finalLevelViolation "M")) :=
  ⟨by decide, (mk_C2 c2Events 2 "M" .done (some 1) (by decide)).2⟩

/-- C9: no check inspects the final state after the event loop: whenever
the replay succeeds with some tracked level equal to the declared final
level, the marble check passes, whatever the final state is (in particular
a stream ending in the alive or in-battle state). -/
theorem mk_C9 (events : List Event) (declared : ℤ) (marble : String)
    (s : MState) (l : ℤ)
    (h : replayEvents .unalive none events = .ok (s, some l))
    (hd : l = declared) :
    checkMarble events declared marble = .ok () := by
  unfold checkMarble
  rw [h]
  simp [hd]

/-- C9, witness: a marble whose stream ends inside a battle, with no death
or survival event, passes the check when the levels agree. -/
theorem mk_C9_witness :
    replayEvents .unalive none c9Events = .ok (.battle, some 1) ∧
    checkMarble c9Events 1 "M" = .ok () :=
  ⟨by decide, mk_C9 c9Events 1 "M" .battle 1 (by decide) rfl⟩

/-! ## Claim C6: the time codec -/

theorem digitVal_toDigitChar : ∀ d < 10, digitVal (toDigitChar d) = some d := by decide

theorem isDigit_toDigitChar : ∀ d < 10, (toDigitChar d).isDigit = true := by decide

theorem natCharsGo_ne_nil (fuel n : ℕ) : natCharsGo (fuel + 1) n ≠ [] := by
  rw [natCharsGo]
  split
  · simp
  · simp

theorem mem_natCharsGo_isDigit (fuel : ℕ) :
    ∀ n c, n < fuel → c ∈ natCharsGo fuel n → c.isDigit = true := by
  induction fuel with
  | zero => intro n c h; omega
  | succ f ih =>
    intro n c hn hc
    rw [natCharsGo] at hc
    split at hc
    · rw [List.mem_singleton] at hc
      subst hc
      exact isDigit_toDigitChar n (by omega)
    · rw [List.mem_append] at hc
      rcases hc with hc | hc
      · exact ih (n / 10) c (by omega) hc
      · rw [List.mem_singleton] at hc
        subst hc
        exact isDigit_toDigitChar _ (Nat.mod_lt _ (by omega))

theorem parseNatGo_append (a b : List Char) :
    ∀ acc, parseNatGo (a ++ b) acc =
      match parseNatGo a acc with
      | some acc' => parseNatGo b acc'
      | none => none := by
  induction a with
  | nil => intro acc; rfl
  | cons c rest ih =>
    intro acc
    rw [List.cons_append, parseNatGo, parseNatGo]
    cases h : digitVal c with
    | some d => exact ih (10 * acc + d)
    | none => rfl

theorem parseNatGo_natCharsGo (fuel : ℕ) :
    ∀ n acc, n < fuel → parseNatGo (natCharsGo fuel n) acc =
      some (acc * 10 ^ (natCharsGo fuel n).length + n) := by
  induction fuel with
  | zero => intro n acc h; omega
  | succ f ih =>
    intro n acc hn
    rw [natCharsGo]
    split
    · simp only [parseNatGo, digitVal_toDigitChar n (by omega)]
      simp only [List.length_singleton, pow_one]
      congr 1
      ring
    · rw [parseNatGo_append]
      rw [ih (n / 10) acc (by omega)]
      simp only [parseNatGo, digitVal_toDigitChar (n % 10) (Nat.mod_lt _ (by omega))]
      have hlen : (natCharsGo f (n / 10) ++ [toDigitChar (n % 10)]).length
          = (natCharsGo f (n / 10)).length + 1 := by simp
      rw [hlen]
      congr 1
      have : 10 * (acc * 10 ^ (natCharsGo f (n / 10)).length + n / 10) + n % 10
          = acc * 10 ^ ((natCharsGo f (n / 10)).length + 1) + (10 * (n / 10) + n % 10) := by
        ring
      rw [this, Nat.div_add_mod]

theorem natChars_ne_nil (n : ℕ) : natChars n ≠ [] := natCharsGo_ne_nil n n

theorem mem_natChars_isDigit (n : ℕ) (c : Char) (hc : c ∈ natChars n) :
    c.isDigit = true :=
  mem_natCharsGo_isDigit (n + 1) n c (Nat.lt_succ_self n) hc

theorem parseNatGo_natChars (n acc : ℕ) :
    parseNatGo (natChars n) acc = some (acc * 10 ^ (natChars n).length + n) :=
  parseNatGo_natCharsGo (n + 1) n acc (Nat.lt_succ_self n)

theorem isDigit_ne_of (c : Char) (h : c.isDigit = true) :
    c ≠ '-' ∧ c ≠ '+' ∧ c ≠ ':' ∧ c ≠ '.' := by
  refine ⟨?_, ?_, ?_, ?_⟩ <;> (intro hEq; subst hEq; exact absurd h (by decide))

theorem pad2Chars_eq (l : List Char) :
    pad2Chars l = List.replicate (2 - l.length) '0' ++ l := by
  rw [pad2Chars]
  split
  · rw [Nat.sub_eq_zero_of_le (by omega)]
    rfl
  · rfl

theorem mem_pad2Chars (l : List Char) (c : Char) (hc : c ∈ pad2Chars l) :
    c = '0' ∨ c ∈ l := by
  rw [pad2Chars_eq, List.mem_append] at hc
  rcases hc with hc | hc
  · exact Or.inl (List.eq_of_mem_replicate hc)
  · exact Or.inr hc

theorem parseNatGo_replicate_zero (k : ℕ) (l : List Char) :
    parseNatGo (List.replicate k '0' ++ l) 0 = parseNatGo l 0 := by
  induction k with
  | zero => rfl
  | succ j ih =>
    rw [List.replicate_succ, List.cons_append]
    simp only [parseNatGo]
    have h0 : digitVal '0' = some 0 := by decide
    rw [h0]
    simpa using ih

theorem parseNatGo_pad2_natChars (m : ℕ) :
    parseNatGo (pad2Chars (natChars m)) 0 = some m := by
  rw [pad2Chars_eq, parseNatGo_replicate_zero, parseNatGo_natChars]
  simp

theorem pad2Chars_natChars_ne_nil (m : ℕ) : pad2Chars (natChars m) ≠ [] := by
  rw [pad2Chars_eq]
  intro h
  exact natChars_ne_nil m (by simpa using (List.append_eq_nil.mp h).2)

theorem mem_pad2Chars_natChars_isDigit (m : ℕ) (c : Char)
    (hc : c ∈ pad2Chars (natChars m)) : c.isDigit = true := by
  rcases mem_pad2Chars _ _ hc with h | h
  · subst h; decide
  · exact mem_natChars_isDigit m c h

theorem pyIntChars_pad2_natChars (m : ℕ) :
    pyIntChars (pad2Chars (natChars m)) = some (m : ℤ) := by
  obtain ⟨c, rest, hl⟩ := List.exists_cons_of_ne_nil (pad2Chars_natChars_ne_nil m)
  have hcd : c.isDigit = true :=
    mem_pad2Chars_natChars_isDigit m c (by rw [hl]; exact List.mem_cons_self c rest)
  obtain ⟨hm, hp, -, -⟩ := isDigit_ne_of c hcd
  rw [hl, pyIntChars, if_neg hm, if_neg hp, ← hl]
  rw [parseNatDigits, if_neg (by simpa using pad2Chars_natChars_ne_nil m)]
  rw [parseNatGo_pad2_natChars]
  rfl

theorem splitColon_no_colon (l : List Char) (h : ∀ c ∈ l, c ≠ ':') :
    splitColon l = [l] := by
  induction l with
  | nil => rfl
  | cons c rest ih =>
    rw [splitColon, if_neg (h c (List.mem_cons_self c rest))]
    rw [ih (fun x hx => h x (List.mem_cons_of_mem c hx))]

theorem splitColon_append (a b : List Char) (h : ∀ c ∈ a, c ≠ ':') :
    splitColon (a ++ ':' :: b) = a :: splitColon b := by
  induction a with
  | nil =>
    rw [List.nil_append, splitColon, if_pos rfl]
  | cons c rest ih =>
    rw [List.cons_append, splitColon, if_neg (h c (List.mem_cons_self c rest))]
    rw [ih (fun x hx => h x (List.mem_cons_of_mem c hx))]

theorem breakDot_append (a b : List Char) (h : ∀ c ∈ a, c ≠ '.') :
    breakDot (a ++ '.' :: b) = (a, some b) := by
  induction a with
  | nil => rw [List.nil_append, breakDot, if_pos rfl]
  | cons c rest ih =>
    rw [List.cons_append, breakDot, if_neg (h c (List.mem_cons_self c rest))]
    rw [ih (fun x hx => h x (List.mem_cons_of_mem c hx))]

theorem pyFloatChars_seconds (a b : ℕ) (hb : b < 10) :
    pyFloatChars (pad2Chars (natChars a) ++ '.' :: natChars b)
      = some ((a : ℚ) + (b : ℚ) / 10) := by
  obtain ⟨c, rest, hl⟩ := List.exists_cons_of_ne_nil (pad2Chars_natChars_ne_nil a)
  have hcd : c.isDigit = true :=
    mem_pad2Chars_natChars_isDigit a c (by rw [hl]; exact List.mem_cons_self c rest)
  obtain ⟨hm, hp, -, -⟩ := isDigit_ne_of c hcd
  rw [hl, List.cons_append, pyFloatChars, if_neg hm, if_neg hp, ← List.cons_append, ← hl]
  rw [pyFloatMag]
  have hdot : ∀ x ∈ pad2Chars (natChars a), x ≠ '.' := by
    intro x hx
    exact (isDigit_ne_of x (mem_pad2Chars_natChars_isDigit a x hx)).2.2.2
  rw [breakDot_append _ _ hdot]
  simp only
  rw [if_neg (by simp [List.isEmpty_iff, pad2Chars_natChars_ne_nil a])]
  rw [parseNatGo_pad2_natChars]
  rw [fracVal]
  have hnb : natChars b = [toDigitChar b] := by
    rw [natChars, natCharsGo, if_pos hb]
  rw [hnb]
  simp only [parseNatGo, digitVal_toDigitChar b hb, List.length_singleton]
  norm_num

theorem floor_natCast_div (n k : ℕ) (hk : 0 < k) :
    ⌊(n : ℚ) / (k : ℚ)⌋ = ((n / k : ℕ) : ℤ) := by
  have hkq : (0 : ℚ) < (k : ℚ) := by exact_mod_cast hk
  rw [Int.floor_eq_iff]
  constructor
  · rw [le_div_iff₀ hkq]
    exact_mod_cast Nat.div_mul_le_self n k
  · rw [div_lt_iff₀ hkq]
    have h2 : n < (n / k + 1) * k := by
      rw [Nat.mul_comm]
      exact Nat.lt_mul_div_succ n hk
    exact_mod_cast h2

theorem padInt2_natCast (m : ℕ) : padInt2 ((m : ℕ) : ℤ) = pad2Chars (natChars m) := by
  rw [padInt2, intChars, if_neg (by simp), Int.toNat_natCast]

theorem secondsChars_natCast (k : ℕ) :
    secondsChars ((k : ℕ) : ℚ) = pad2Chars (natChars k) ++ '.' :: natChars 0 := by
  rw [secondsChars]
  have hcast : (10 : ℚ) * ((k : ℕ) : ℚ) + 1 / 2 = (((10 * k : ℕ) : ℤ) : ℚ) + 1 / 2 := by
    push_cast
    ring
  have htenths : ⌊(10 : ℚ) * ((k : ℕ) : ℚ) + 1 / 2⌋ = ((10 * k : ℕ) : ℤ) := by
    rw [hcast, Int.floor_int_add]
    norm_num
  simp only [htenths]
  rw [if_neg (by simp)]
  rw [Int.toNat_natCast]
  rw [Nat.mul_div_cancel_left k (by norm_num), Nat.mul_mod_right]

theorem displayChars_natCast (n : ℕ) :
    displayChars (n : ℚ) = pad2Chars (natChars (n / 3600)) ++ ':' ::
      (pad2Chars (natChars (n / 60 % 60)) ++ ':' ::
        (pad2Chars (natChars (n % 60)) ++ '.' :: natChars 0)) := by
  have h3600 : ⌊(n : ℚ) / 3600⌋ = ((n / 3600 : ℕ) : ℤ) := by
    have h := floor_natCast_div n 3600 (by norm_num)
    push_cast at h
    exact_mod_cast h
  have h60 : ⌊(n : ℚ) / 60⌋ = ((n / 60 : ℕ) : ℤ) := by
    have h := floor_natCast_div n 60 (by norm_num)
    push_cast at h
    exact_mod_cast h
  rw [displayChars, h3600, h60]
  have hfmod : Int.fmod ((n / 60 : ℕ) : ℤ) 60 = ((n / 60 % 60 : ℕ) : ℤ) := by
    rw [Int.fmod_eq_emod _ (by norm_num)]
    exact_mod_cast Int.ofNat_emod (n / 60) 60
  have hsec : (n : ℚ) - 60 * (((n / 60 : ℕ) : ℤ) : ℚ) = ((n % 60 : ℕ) : ℚ) := by
    rw [sub_eq_iff_eq_add]
    norm_cast
    exact_mod_cast (by omega : n = n % 60 + 60 * (n / 60))
  rw [hfmod, hsec, secondsChars_natCast, padInt2_natCast, padInt2_natCast]

theorem parse_display_roundTrip (n : ℕ) :
    to_numeric_time (to_display_time (n : ℚ)) = some (n : ℚ) := by
  have hdata : (to_display_time (n : ℚ)).data = displayChars (n : ℚ) := rfl
  rw [to_numeric_time, hdata, displayChars_natCast]
  have hA : ∀ c ∈ pad2Chars (natChars (n / 3600)), c ≠ ':' := fun c hc =>
    (isDigit_ne_of c (mem_pad2Chars_natChars_isDigit _ c hc)).2.2.1
  have hB : ∀ c ∈ pad2Chars (natChars (n / 60 % 60)), c ≠ ':' := fun c hc =>
    (isDigit_ne_of c (mem_pad2Chars_natChars_isDigit _ c hc)).2.2.1
  have hC : ∀ c ∈ pad2Chars (natChars (n % 60)) ++ '.' :: natChars 0, c ≠ ':' := by
    intro c hc
    rw [List.mem_append] at hc
    rcases hc with hc | hc
    · exact (isDigit_ne_of c (mem_pad2Chars_natChars_isDigit _ c hc)).2.2.1
    · rcases List.mem_cons.mp hc with hc | hc
      · subst hc; decide
      · exact (isDigit_ne_of c (mem_natChars_isDigit 0 c hc)).2.2.1
  rw [parseTimeChars, splitColon_append _ _ hA, splitColon_append _ _ hB,
    splitColon_no_colon _ hC]
  have h1 := pyIntChars_pad2_natChars (n / 3600)
  have h2 := pyIntChars_pad2_natChars (n / 60 % 60)
  have h3 := pyFloatChars_seconds (n % 60) 0 (by norm_num)
  simp only [h1, h2, h3]
  rw [Option.some.injEq]
  norm_num
  norm_cast
  exact_mod_cast (by omega : 3600 * (n / 3600) + 60 * (n / 60 % 60) + n % 60 = n)

/-- C6: the time parser on the sample string gives 3723.5 seconds, the
display formatter inverts it, parsing the display of any whole number of
seconds (hours may exceed 24) returns that number, and a string that does
not split into exactly three colon-separated parts fails to parse. -/
theorem mk_C6 :
    to_numeric_time "01:02:03.5" = some 3723.5 ∧
    to_display_time 3723.5 = "01:02:03.5" ∧
    (∀ n : ℕ, to_numeric_time (to_display_time (n : ℚ)) = some (n : ℚ)) ∧
    (∀ s : String, (splitColon s.data).length ≠ 3 → to_numeric_time s = none) := by
  refine ⟨?_, ?_, parse_display_roundTrip, ?_⟩
  · have h : to_numeric_time "01:02:03.5"
        = some (3600 * ((((1 : ℕ) : ℤ)) : ℚ) + 60 * ((((2 : ℕ) : ℤ)) : ℚ) +
          (((3 : ℕ) : ℚ) + ((5 : ℕ) : ℚ) / 10 ^ 1)) := rfl
    rw [h]
    norm_num
  · have h1 : ⌊(3723.5 : ℚ) / 3600⌋ = 1 := by norm_num [Int.floor_eq_iff]
    have h2 : ⌊(3723.5 : ℚ) / 60⌋ = 62 := by norm_num [Int.floor_eq_iff]
    have h3 : (3723.5 : ℚ) - 60 * ((62 : ℤ) : ℚ) = 7 / 2 := by norm_num
    have h4 : ⌊(10 : ℚ) * (7 / 2) + 1 / 2⌋ = 35 := by norm_num [Int.floor_eq_iff]
    rw [to_display_time, displayChars, h1, h2, h3, secondsChars]
    simp only [h4]
    decide
  · intro s h
    rw [to_numeric_time]
    rcases hl : splitColon s.data with _ | ⟨a, _ | ⟨b, _ | ⟨c, _ | ⟨d, t⟩⟩⟩⟩
    · rw [parseTimeChars, hl]
    · rw [parseTimeChars, hl]
    · rw [parseTimeChars, hl]
    · exact absurd (by rw [hl]; rfl : (splitColon s.data).length = 3) h
    · rw [parseTimeChars, hl]

/-- C6, witness: a two-part time string does not have three parts and
fails to parse. -/
theorem mk_C6_witness :
    (splitColon "1:2".data).length ≠ 3 ∧ to_numeric_time "1:2" = none :=
  ⟨by decide, mk_C6.2.2.2 "1:2" (by decide)⟩

/-! ## Claim C8: a marble with no events can never validate -/

theorem mapExcept_ok_forall₂ {α β : Type} (f : α → Except VError β) :
    ∀ (l : List α) (l' : List β), mapExcept f l = .ok l' →
      List.Forall₂ (fun a b => f a = .ok b) l l' := by
  intro l
  induction l with
  | nil =>
    intro l' h
    rw [mapExcept] at h
    cases h
    exact List.Forall₂.nil
  | cons a rest ih =>
    intro l' h
    rw [mapExcept] at h
    cases hfa : f a with
    | error err => rw [hfa] at h; exact absurd h (by simp)
    | ok b =>
      rw [hfa] at h
      cases hrest : mapExcept f rest with
      | error err => rw [hrest] at h; exact absurd h (by simp)
      | ok bs =>
        rw [hrest] at h
        simp only at h
        cases h
        exact List.Forall₂.cons hfa (ih bs hrest)

theorem coerceMarbleRow_ok (cn : List String) (r : RawMarbleRow) (b : MarbleRow)
    (h : coerceMarbleRow cn r = .ok b) : b.name = r.name := by
  unfold coerceMarbleRow at h
  repeat' split at h
  all_goals simp_all
  subst h
  rfl

theorem coerceBeginRow_ok (mn : List String) (r : RawBeginRow) (b : BeginRow)
    (h : coerceBeginRow mn r = .ok b) : b.name = r.name ∧ b.kind = r.kind := by
  unfold coerceBeginRow at h
  repeat' split at h
  all_goals simp_all
  subst h
  exact ⟨rfl, rfl⟩

theorem coerceLevelRow_ok (mn : List String) (r : RawLevelRow) (b : LevelRow)
    (h : coerceLevelRow mn r = .ok b) : b.name = r.name := by
  unfold coerceLevelRow at h
  repeat' split at h
  all_goals simp_all
  subst h
  rfl

theorem coerceEndRow_ok (mn : List String) (r : RawEndRow) (b : EndRow)
    (h : coerceEndRow mn r = .ok b) :
    b.name = r.name ∧ b.kind = r.kind ∧ (b.kind = "Death" ∨ b.kind = "Survive") := by
  unfold coerceEndRow at h
  repeat' split at h
  all_goals simp_all
  subst h
  exact ⟨rfl, rfl, by assumption⟩

theorem coerceBattleMarbleRow_ok (bi mn : List String) (r : RawBattleMarbleRow)
    (b : BattleMarbleRow) (h : coerceBattleMarbleRow bi mn r = .ok b) :
    b.name = r.name := by
  unfold coerceBattleMarbleRow at h
  repeat' split at h
  all_goals simp_all
  subst h
  rfl

theorem names_eq_of_marbles (cn : List String) (raws : List RawMarbleRow)
    (rows : List MarbleRow) (h : validateMarbles cn raws = .ok rows) :
    rows.map (fun r => r.name) = raws.map (fun r => r.name) := by
  have hf := mapExcept_ok_forall₂ _ raws rows h
  clear h
  induction hf with
  | nil => rfl
  | cons hab htl ih =>
    simp only [List.map_cons, ih, coerceMarbleRow_ok _ _ _ hab]
theorem checkMarblesGo_ok (mr : List MarbleRow) (bg : List BeginRow)
    (lv : List LevelRow) (en : List EndRow) (bm : List BattleMarbleRow)
    (bt : List BattleRow) :
    ∀ names, checkMarblesGo mr bg lv en bm bt names = .ok () →
      ∀ m ∈ names, ∃ fl, finalLevelOf mr m = some fl ∧
        checkMarble (eventsFor m bg lv en bm bt) fl m = .ok () := by
  intro names
  induction names with
  | nil => intro _ m hm; exact absurd hm (by simp)
  | cons a rest ih =>
    intro h m hm
    rw [checkMarblesGo] at h
    cases hfl : finalLevelOf mr a with
    | none => rw [hfl] at h; exact absurd h (by simp)
    | some fl =>
      rw [hfl] at h
      simp only at h
      cases hcm : checkMarble (eventsFor a bg lv en bm bt) fl a with
      | error err => rw [hcm] at h; exact absurd h (by simp)
      | ok u =>
        rw [hcm] at h
        rcases List.mem_cons.mp hm with rfl | hm'
        · exact ⟨fl, hfl, by cases u; exact hcm⟩
        · exact ih h m hm'

theorem validate_ok_parts (ds : Dataset) (h : validate ds = .ok ()) :
    ∃ colorRows marbleRows beginRows levelRows endRows battleRows bcRows bmRows,
      validateColors ds.colors = .ok colorRows ∧
      validateMarbles (colorRows.map (fun r => r.color)) ds.marbles = .ok marbleRows ∧
      validateBegins (marbleRows.map (fun r => r.name)) ds.begins = .ok beginRows ∧
      validateLevels (marbleRows.map (fun r => r.name)) ds.levels = .ok levelRows ∧
      validateEnds (marbleRows.map (fun r => r.name)) ds.ends = .ok endRows ∧
      validateBattles ds.battles = .ok battleRows ∧
      validateBattleColors (battleRows.map (fun b => b.battleId))
        (colorRows.map (fun r => r.color)) ds.battleColors = .ok bcRows ∧
      validateBattleMarbles (battleRows.map (fun b => b.battleId))
        (marbleRows.map (fun r => r.name)) ds.battleMarbles = .ok bmRows ∧
      checkOverlap (sortBattles battleRows) = .ok () ∧
      checkRosters battleRows bcRows bmRows marbleRows = .ok () ∧
      checkMarbles marbleRows beginRows levelRows endRows bmRows battleRows = .ok () := by
  unfold validate at h
  cases h1 : validateColors ds.colors with
  | error e => simp only [h1] at h; exact absurd h (by simp)
  | ok colorRows =>
  simp only [h1] at h
  cases h2 : validateMarbles (colorRows.map (fun r => r.color)) ds.marbles with
  | error e => simp only [h2] at h; exact absurd h (by simp)
  | ok marbleRows =>
  simp only [h2] at h
  cases h3 : validateBegins (marbleRows.map (fun r => r.name)) ds.begins with
  | error e => simp only [h3] at h; exact absurd h (by simp)
  | ok beginRows =>
  simp only [h3] at h
  cases h4 : validateLevels (marbleRows.map (fun r => r.name)) ds.levels with
  | error e => simp only [h4] at h; exact absurd h (by simp)
  | ok levelRows =>
  simp only [h4] at h
  cases h5 : validateEnds (marbleRows.map (fun r => r.name)) ds.ends with
  | error e => simp only [h5] at h; exact absurd h (by simp)
  | ok endRows =>
  simp only [h5] at h
  cases h6 : validateBattles ds.battles with
  | error e => simp only [h6] at h; exact absurd h (by simp)
  | ok battleRows =>
  simp only [h6] at h
  cases h7 : validateBattleColors (battleRows.map (fun b => b.battleId))
      (colorRows.map (fun r => r.color)) ds.battleColors with
  | error e => simp only [h7] at h; exact absurd h (by simp)
  | ok bcRows =>
  simp only [h7] at h
  cases h8 : validateBattleMarbles (battleRows.map (fun b => b.battleId))
      (marbleRows.map (fun r => r.name)) ds.battleMarbles with
  | error e => simp only [h8] at h; exact absurd h (by simp)
  | ok bmRows =>
  simp only [h8] at h
  cases h9 : checkOverlap (sortBattles battleRows) with
  | error e => simp only [h9] at h; exact absurd h (by simp)
  | ok u9 =>
  simp only [h9] at h
  cases h10 : checkRosters battleRows bcRows bmRows marbleRows with
  | error e => simp only [h10] at h; exact absurd h (by simp)
  | ok u10 =>
  simp only [h10] at h
  cases u9
  cases u10
  exact ⟨colorRows, marbleRows, beginRows, levelRows, endRows, battleRows, bcRows,
    bmRows, rfl, h2, h3, h4, h5, rfl, h7, h8, h9, h10, h⟩

theorem forall₂_mem_right {α β : Type} {R : α → β → Prop} :
    ∀ {l : List α} {l' : List β}, List.Forall₂ R l l' → ∀ b ∈ l', ∃ a ∈ l, R a b := by
  intro l l' h
  induction h with
  | nil => intro b hb; exact absurd hb (by simp)
  | cons hab htl ih =>
    intro b hb
    rcases List.mem_cons.mp hb with rfl | hb'
    · exact ⟨_, List.mem_cons_self _ _, hab⟩
    · obtain ⟨a, ha, hr⟩ := ih b hb'
      exact ⟨a, List.mem_cons_of_mem _ ha, hr⟩

theorem eventsFor_nil (m : String) (bg : List BeginRow) (lv : List LevelRow)
    (en : List EndRow) (bm : List BattleMarbleRow) (bt : List BattleRow)
    (h1 : ∀ r ∈ bg, r.name ≠ m) (h2 : ∀ r ∈ lv, r.name ≠ m)
    (h3 : ∀ r ∈ en, r.name ≠ m) (h4 : ∀ r ∈ bm, r.name ≠ m) :
    eventsFor m bg lv en bm bt = [] := by
  have hbg : bg.filter (fun r => r.name = m) = [] := by
    rw [List.filter_eq_nil_iff]
    intro r hr
    simpa using h1 r hr
  have hlv : lv.filter (fun r => r.name = m) = [] := by
    rw [List.filter_eq_nil_iff]
    intro r hr
    simpa using h2 r hr
  have hen : en.filter (fun r => r.name = m) = [] := by
    rw [List.filter_eq_nil_iff]
    intro r hr
    simpa using h3 r hr
  have hbm : bm.filter (fun r => r.name = m) = [] := by
    rw [List.filter_eq_nil_iff]
    intro r hr
    simpa using h4 r hr
  rw [eventsFor, beginEvents, levelEvents, endEvents, beginBattleEvents,
    endBattleEvents, participations, hbg, hlv, hen, hbm]
  rfl

theorem checkMarble_nil_fails (fl : ℤ) (m : String) :
    checkMarble [] fl m = .error (.finalLevelViolation m) := by
  simp [checkMarble, replayEvents]

theorem stepEvent_level_some (s : MState) (lv : Option ℤ) (e : Event)
    (s1 : MState) (l1 : Option ℤ) (h : stepEvent s lv e = .ok (s1, l1))
    (hs : l1.isSome = true) :
    lv.isSome = true ∨ e.kind = "Born" ∨ e.kind = "Summon" := by
  cases s <;> unfold stepEvent at h <;> (repeat' split at h) <;> simp_all

theorem replay_some_has_born (evs : List Event) :
    ∀ (s : MState) (lv : Option ℤ) (s' : MState) (l' : Option ℤ),
      replayEvents s lv evs = .ok (s', l') → l'.isSome = true →
      lv.isSome = true ∨ ∃ e ∈ evs, e.kind = "Born" ∨ e.kind = "Summon" := by
  induction evs with
  | nil =>
    intro s lv s' l' h hs
    rw [replayEvents] at h
    cases h
    exact Or.inl hs
  | cons e rest ih =>
    intro s lv s' l' h hs
    rw [replayEvents] at h
    cases hstep : stepEvent s lv e with
    | error err => rw [hstep] at h; exact absurd h (by simp)
    | ok p =>
      obtain ⟨s1, l1⟩ := p
      rw [hstep] at h
      simp only at h
      rcases ih s1 l1 s' l' h hs with h1 | ⟨e', he', hk⟩
      · rcases stepEvent_level_some s lv e s1 l1 hstep h1 with h2 | h2
        · exact Or.inl h2
        · exact Or.inr ⟨e, List.mem_cons_self _ _, h2⟩
      · exact Or.inr ⟨e', List.mem_cons_of_mem _ he', hk⟩

theorem checkMarble_ok_replay (events : List Event) (fl : ℤ) (m : String)
    (h : checkMarble events fl m = .ok ()) :
    ∃ s', replayEvents .unalive none events = .ok (s', some fl) := by
  unfold checkMarble at h
  cases hr : replayEvents .unalive none events with
  | error err => rw [hr] at h; exact absurd h (by simp)
  | ok p =>
    obtain ⟨s', l'⟩ := p
    rw [hr] at h
    simp only at h
    by_cases hl : l' = some fl
    · subst hl
      exact ⟨s', rfl⟩

    · rw [if_neg hl] at h; exact absurd h (by simp)

theorem born_event_from_begins (m : String) (bg : List BeginRow) (lv : List LevelRow)
    (en : List EndRow) (bm : List BattleMarbleRow) (bt : List BattleRow) (e : Event)
    (he : e ∈ eventsFor m bg lv en bm bt)
    (hk : e.kind = "Born" ∨ e.kind = "Summon")
    (hend : ∀ r ∈ en, r.kind = "Death" ∨ r.kind = "Survive") :
    ∃ br ∈ bg, br.name = m ∧ br.kind = e.kind := by
  rw [eventsFor, sortEvents] at he
  have he' := (List.perm_insertionSort (fun a b : Event => a.time ≤ b.time)
    (beginEvents m bg ++ levelEvents m lv ++ endEvents m en ++
      beginBattleEvents m bm bt ++ endBattleEvents m bm bt)).mem_iff.mp he
  simp only [List.mem_append] at he'
  rcases he' with ((((h1 | h2) | h3) | h4) | h5)
  · rw [beginEvents] at h1
    obtain ⟨br, hbr, hbe⟩ := List.mem_map.mp h1
    obtain ⟨hbg, hname⟩ := List.mem_filter.mp hbr
    refine ⟨br, hbg, by simpa using hname, ?_⟩
    rw [← hbe]
  · rw [levelEvents] at h2
    obtain ⟨br, hbr, hbe⟩ := List.mem_map.mp h2
    rw [← hbe] at hk
    simp at hk
  · rw [endEvents] at h3
    obtain ⟨br, hbr, hbe⟩ := List.mem_map.mp h3
    obtain ⟨hen', -⟩ := List.mem_filter.mp hbr
    rcases hend br hen' with hd | hd <;> rw [← hbe] at hk <;> simp [hd] at hk
  · rw [beginBattleEvents] at h4
    obtain ⟨br, hbr, hbe⟩ := List.mem_map.mp h4
    rw [← hbe] at hk
    simp at hk
  · rw [endBattleEvents] at h5
    obtain ⟨br, hbr, hbe⟩ := List.mem_map.mp h5
    rw [← hbe] at hk
    simp at hk

theorem validate_ok_marble_check (ds : Dataset) (m : String)
    (h : validate ds = .ok ()) (hm : m ∈ ds.marbles.map (fun r => r.name)) :
    ∃ (colorNames : List String) (marbleRows : List MarbleRow)
      (beginRows : List BeginRow) (levelRows : List LevelRow)
      (endRows : List EndRow) (battleRows : List BattleRow)
      (bmRows : List BattleMarbleRow) (fl : ℤ),
      List.Forall₂ (fun a b => coerceMarbleRow colorNames a = .ok b)
        ds.marbles marbleRows ∧
      List.Forall₂ (fun a b =>
        coerceBeginRow (marbleRows.map (fun r => r.name)) a = .ok b)
        ds.begins beginRows ∧
      List.Forall₂ (fun a b =>
        coerceLevelRow (marbleRows.map (fun r => r.name)) a = .ok b)
        ds.levels levelRows ∧
      List.Forall₂ (fun a b =>
        coerceEndRow (marbleRows.map (fun r => r.name)) a = .ok b)
        ds.ends endRows ∧
      List.Forall₂ (fun a b =>
        coerceBattleMarbleRow (battleRows.map (fun x => x.battleId))
          (marbleRows.map (fun r => r.name)) a = .ok b)
        ds.battleMarbles bmRows ∧
      checkMarble (eventsFor m beginRows levelRows endRows bmRows battleRows) fl m
        = .ok () := by
  obtain ⟨colorRows, marbleRows, beginRows, levelRows, endRows, battleRows, bcRows,
    bmRows, h1, h2, h3, h4, h5, h6, h7, h8, h9, h10, h11⟩ := validate_ok_parts ds h
  have hm' : m ∈ marbleRows.map (fun r => r.name) := by
    rw [names_eq_of_marbles _ _ _ h2]
    exact hm
  have h2' : mapExcept (coerceMarbleRow (colorRows.map (fun r => r.color)))
      ds.marbles = .ok marbleRows := h2
  have h3' : mapExcept (coerceBeginRow (marbleRows.map (fun r => r.name)))
      ds.begins = .ok beginRows := h3
  have h4' : mapExcept (coerceLevelRow (marbleRows.map (fun r => r.name)))
      ds.levels = .ok levelRows := h4
  have h5' : mapExcept (coerceEndRow (marbleRows.map (fun r => r.name)))
      ds.ends = .ok endRows := h5
  have h8' : mapExcept (coerceBattleMarbleRow (battleRows.map (fun x => x.battleId))
      (marbleRows.map (fun r => r.name))) ds.battleMarbles = .ok bmRows := h8
  rw [checkMarbles] at h11
  obtain ⟨fl, hfl, hcm⟩ :=
    checkMarblesGo_ok marbleRows beginRows levelRows endRows bmRows battleRows _
      h11 m ((mem_firstDedup _ _).mpr hm')
  exact ⟨colorRows.map (fun r => r.color), marbleRows, beginRows, levelRows,
    endRows, battleRows, bmRows, fl,
    mapExcept_ok_forall₂ _ _ _ h2', mapExcept_ok_forall₂ _ _ _ h3',
    mapExcept_ok_forall₂ _ _ _ h4', mapExcept_ok_forall₂ _ _ _ h5',
    mapExcept_ok_forall₂ _ _ _ h8', hcm⟩

/-- C8: a marble listed in the marbles table with no begin, level or end
rows and no battle participation always fails validation (its tracked level
is never set, so the final-level comparison cannot succeed); equivalently,
in any dataset that validates, every marble has at least one begin row of
type Born or Summon. -/
theorem mk_C8 :
    (∀ (ds : Dataset) (m : String), m ∈ ds.marbles.map (fun r => r.name) →
      (∀ r ∈ ds.begins, r.name ≠ m) → (∀ r ∈ ds.levels, r.name ≠ m) →
      (∀ r ∈ ds.ends, r.name ≠ m) → (∀ r ∈ ds.battleMarbles, r.name ≠ m) →
      validate ds ≠ .ok ()) ∧
    (∀ (ds : Dataset) (m : String), validate ds = .ok () →
      m ∈ ds.marbles.map (fun r => r.name) →
      ∃ r ∈ ds.begins, r.name = m ∧ (r.kind = "Born" ∨ r.kind = "Summon")) := by
  constructor
  · intro ds m hm h1 h2 h3 h4 hval
    obtain ⟨cn, marbleRows, beginRows, levelRows, endRows, battleRows, bmRows, fl,
      hfm, hfb, hfl, hfe, hfbm, hcm⟩ := validate_ok_marble_check ds m hval hm
    have hb' : ∀ r ∈ beginRows, r.name ≠ m := by
      intro r hr
      obtain ⟨a, ha, hco⟩ := forall₂_mem_right hfb r hr
      rw [(coerceBeginRow_ok _ _ _ hco).1]
      exact h1 a ha
    have hl' : ∀ r ∈ levelRows, r.name ≠ m := by
      intro r hr
      obtain ⟨a, ha, hco⟩ := forall₂_mem_right hfl r hr
      rw [coerceLevelRow_ok _ _ _ hco]
      exact h2 a ha
    have he' : ∀ r ∈ endRows, r.name ≠ m := by
      intro r hr
      obtain ⟨a, ha, hco⟩ := forall₂_mem_right hfe r hr
      rw [(coerceEndRow_ok _ _ _ hco).1]
      exact h3 a ha
    have hbm' : ∀ r ∈ bmRows, r.name ≠ m := by
      intro r hr
      obtain ⟨a, ha, hco⟩ := forall₂_mem_right hfbm r hr
      rw [coerceBattleMarbleRow_ok _ _ _ _ hco]
      exact h4 a ha
    rw [eventsFor_nil m _ _ _ _ battleRows hb' hl' he' hbm',
      checkMarble_nil_fails] at hcm
    exact absurd hcm (by simp)
  · intro ds m hval hm
    obtain ⟨cn, marbleRows, beginRows, levelRows, endRows, battleRows, bmRows, fl,
      hfm, hfb, hfl, hfe, hfbm, hcm⟩ := validate_ok_marble_check ds m hval hm
    obtain ⟨s', hrep⟩ := checkMarble_ok_replay _ _ _ hcm
    rcases replay_some_has_born _ _ _ _ _ hrep (by simp) with hfalse | ⟨e, he, hk⟩
    · exact absurd hfalse (by simp)
    · have hend : ∀ r ∈ endRows, r.kind = "Death" ∨ r.kind = "Survive" := by
        intro r hr
        obtain ⟨a, ha, hco⟩ := forall₂_mem_right hfe r hr
        exact (coerceEndRow_ok _ _ _ hco).2.2
      obtain ⟨br, hbr, hbname, hbkind⟩ :=
        born_event_from_begins m beginRows levelRows endRows bmRows battleRows
          e he hk hend
      obtain ⟨a, ha, hco⟩ := forall₂_mem_right hfb br hbr
      obtain ⟨hn, hknd⟩ := coerceBeginRow_ok _ _ _ hco
      refine ⟨a, ha, ?_, ?_⟩
      · rw [← hn]; exact hbname
      · rw [← hknd, hbkind]; exact hk

/-- C8, witness: the one-marble dataset with a Born row validates and
indeed has a Born begin row; removing the begin row makes validation
fail. -/
theorem mk_C8_witness :
    (validate c8Ok = .ok () ∧
      ∃ r ∈ c8Ok.begins, r.name = "M" ∧ (r.kind = "Born" ∨ r.kind = "Summon")) ∧
    ("M" ∈ c8Bad.marbles.map (fun r => r.name) ∧ validate c8Bad ≠ .ok ()) :=
  ⟨⟨by decide, mk_C8.2 c8Ok "M" (by decide) (by decide)⟩,
   ⟨by decide, mk_C8.1 c8Bad "M" (by decide) (by decide) (by decide) (by decide)
      (by decide)⟩⟩

/-! ## Claim C10: levels of end rows and kill counts do not interfere -/

theorem isNonnegIntStr_spec (s : String) (h : isNonnegIntStr s = true) :
    ∃ k : ℤ, pyInt s = some k ∧ 0 ≤ k := by
  unfold isNonnegIntStr at h
  cases hp : pyInt s with
  | none => rw [hp] at h; simp at h
  | some k => rw [hp] at h; exact ⟨k, rfl, by simpa using h⟩

theorem coerceMarbleRow_congr (cn : List String) (a b : RawMarbleRow)
    (h : marbleRowRelB a b = true) :
    exceptRel typedMarbleRel (coerceMarbleRow cn a) (coerceMarbleRow cn b) := by
  obtain ⟨n1, fn1, k1, c1, fl1, ki1⟩ := a
  obtain ⟨n2, fn2, k2, c2, fl2, ki2⟩ := b
  simp only [marbleRowRelB, Bool.and_eq_true, decide_eq_true_eq] at h
  obtain ⟨⟨⟨⟨⟨⟨hn, hfn⟩, hk⟩, hc⟩, hfl⟩, hki1⟩, hki2⟩ := h
  subst hn hfn hk hc hfl
  obtain ⟨v1, hv1, hv1n⟩ := isNonnegIntStr_spec _ hki1
  obtain ⟨v2, hv2, hv2n⟩ := isNonnegIntStr_spec _ hki2
  unfold coerceMarbleRow
  simp only
  by_cases hcn : c1 ∈ cn
  · rw [if_pos hcn, if_pos hcn]
    cases hpf : pyInt fl1 with
    | none => exact trivial
    | some v =>
      simp only
      by_cases hvl : is_valid_level v = true
      · rw [if_pos hvl, if_pos hvl, hv1, hv2]
        simp [exceptRel, typedMarbleRel, hv1n, hv2n]
      · rw [if_neg hvl, if_neg hvl]
        exact trivial
  · rw [if_neg hcn, if_neg hcn]
    exact trivial

theorem coerceEndRow_congr (mn : List String) (a b : RawEndRow)
    (h : endRowRelB a b = true) :
    exceptRel typedEndRel (coerceEndRow mn a) (coerceEndRow mn b) := by
  obtain ⟨t1, n1, o1, l1, k1⟩ := a
  obtain ⟨t2, n2, o2, l2, k2⟩ := b
  simp only [endRowRelB, Bool.and_eq_true, decide_eq_true_eq] at h
  obtain ⟨⟨⟨⟨⟨ht, hn⟩, ho⟩, hk⟩, hl1⟩, hl2⟩ := h
  subst ht hn ho hk
  obtain ⟨v1, hv1, hv1n⟩ := isNonnegIntStr_spec _ hl1
  obtain ⟨v2, hv2, hv2n⟩ := isNonnegIntStr_spec _ hl2
  unfold coerceEndRow
  cases hpt : to_numeric_time t1 with
  | none => exact trivial
  | some t =>
    simp only
    by_cases hnn : n1 ∈ mn
    · rw [if_pos hnn, if_pos hnn]
      by_cases hloc : o1 = "BATTLE" ∨ o1 = "-" ∨ o1 ∈ mn
      · rw [if_pos hloc, if_pos hloc, hv1, hv2]
        have hvl1 : is_valid_level v1 = true := by
          simpa [is_valid_level] using hv1n
        have hvl2 : is_valid_level v2 = true := by
          simpa [is_valid_level] using hv2n
        simp only [hvl1, hvl2, eq_self_iff_true, if_true]
        by_cases hkind : k1 = "Death" ∨ k1 = "Survive"
        · rw [if_pos hkind, if_pos hkind]
          exact ⟨rfl, rfl, rfl, rfl, hkind⟩
        · rw [if_neg hkind, if_neg hkind]
          exact trivial
      · rw [if_neg hloc, if_neg hloc]
        exact trivial
    · rw [if_neg hnn, if_neg hnn]
      exact trivial

theorem mapExcept_rel {α β : Type} (f g : α → Except VError β) (R : β → β → Prop)
    (p : α → α → Bool)
    (hfg : ∀ a b, p a b = true → exceptRel R (f a) (g b)) :
    ∀ l1 l2, relAll p l1 l2 = true →
      exceptListRel R (mapExcept f l1) (mapExcept g l2) := by
  intro l1
  induction l1 with
  | nil =>
    intro l2 h
    cases l2 with
    | nil => exact List.Forall₂.nil
    | cons b bs => simp [relAll] at h
  | cons a as ih =>
    intro l2 h
    cases l2 with
    | nil => simp [relAll] at h
    | cons b bs =>
      rw [relAll, Bool.and_eq_true] at h
      obtain ⟨hab, hrest⟩ := h
      have hstep := hfg a b hab
      rw [mapExcept, mapExcept]
      cases hfa : f a with
      | error e1 =>
        rw [hfa] at hstep
        cases hgb : g b with
        | error e2 => exact trivial
        | ok y => rw [hgb] at hstep; exact absurd hstep (by simp [exceptRel])
      | ok x =>
        rw [hfa] at hstep
        cases hgb : g b with
        | error e2 => rw [hgb] at hstep; exact absurd hstep (by simp [exceptRel])
        | ok y =>
          rw [hgb] at hstep
          have htl := ih bs hrest
          cases hma : mapExcept f as with
          | error e1 =>
            rw [hma] at htl
            cases hmb : mapExcept g bs with
            | error e2 => exact trivial
            | ok ys => rw [hmb] at htl; exact absurd htl (by simp [exceptListRel])
          | ok xs =>
            rw [hma] at htl
            cases hmb : mapExcept g bs with
            | error e2 => rw [hmb] at htl; exact absurd htl (by simp [exceptListRel])
            | ok ys =>
              rw [hmb] at htl
              exact List.Forall₂.cons hstep htl

theorem eventRel_refl (e : Event) : eventRel e e := ⟨rfl, rfl, rfl, Or.inl rfl⟩

theorem forall₂_eventRel_refl (l : List Event) : List.Forall₂ eventRel l l := by
  induction l with
  | nil => exact List.Forall₂.nil
  | cons e rest ih => exact List.Forall₂.cons (eventRel_refl e) ih

theorem stepEvent_congr (s : MState) (lv : Option ℤ) (e1 e2 : Event)
    (h : eventRel e1 e2) :
    okPart (stepEvent s lv e1) = okPart (stepEvent s lv e2) := by
  obtain ⟨t1, k1, l1, o1⟩ := e1
  obtain ⟨t2, k2, l2, o2⟩ := e2
  obtain ⟨ht, hk, ho, hl⟩ := h
  subst ht hk ho
  rcases hl with hl | hd | hd
  · simp only at hl
    subst hl
    rfl
  · simp only at hd
    subst hd
    cases s <;> rfl
  · simp only at hd
    subst hd
    cases s <;> rfl

theorem replayEvents_congr :
    ∀ (l1 l2 : List Event), List.Forall₂ eventRel l1 l2 →
      ∀ (s : MState) (lv : Option ℤ),
        okPart (replayEvents s lv l1) = okPart (replayEvents s lv l2) := by
  intro l1 l2 h
  induction h with
  | nil => intro s lv; rfl
  | cons hab htl ih =>
    intro s lv
    rw [replayEvents, replayEvents]
    have hstep := stepEvent_congr s lv _ _ hab
    cases h1 : stepEvent s lv _ with
    | error e =>
      rw [h1] at hstep
      cases h2 : stepEvent s lv _ with
      | error e2 => rfl
      | ok p => rw [h2] at hstep; exact absurd hstep (by simp [okPart])
    | ok p =>
      rw [h1] at hstep
      cases h2 : stepEvent s lv _ with
      | error e2 => rw [h2] at hstep; exact absurd hstep (by simp [okPart])
      | ok q =>
        rw [h2] at hstep
        simp only [okPart, Option.some.injEq] at hstep
        subst hstep
        obtain ⟨s', lv'⟩ := p
        exact ih s' lv'

theorem checkMarble_congr (l1 l2 : List Event) (h : List.Forall₂ eventRel l1 l2)
    (fl : ℤ) (m : String) :
    isOkE (checkMarble l1 fl m) = isOkE (checkMarble l2 fl m) := by
  have hr := replayEvents_congr l1 l2 h .unalive none
  rw [checkMarble, checkMarble]
  cases h1 : replayEvents .unalive none l1 with
  | error e =>
    rw [h1] at hr
    cases h2 : replayEvents .unalive none l2 with
    | error e2 => rfl
    | ok p => rw [h2] at hr; exact absurd hr (by simp [okPart])
  | ok p =>
    rw [h1] at hr
    cases h2 : replayEvents .unalive none l2 with
    | error e2 => rw [h2] at hr; exact absurd hr (by simp [okPart])
    | ok q =>
      rw [h2] at hr
      simp only [okPart, Option.some.injEq] at hr
      subst hr
      rfl

theorem orderedInsert_congr (a b : Event) (hab : eventRel a b) :
    ∀ (l1 l2 : List Event), List.Forall₂ eventRel l1 l2 →
      List.Forall₂ eventRel
        (List.orderedInsert (fun x y => x.time ≤ y.time) a l1)
        (List.orderedInsert (fun x y => x.time ≤ y.time) b l2) := by
  intro l1 l2 h
  induction h with
  | nil => exact List.Forall₂.cons hab List.Forall₂.nil
  | cons hxy htl ih =>
    rename_i x y xs ys
    rw [List.orderedInsert, List.orderedInsert]
    have htime : a.time = b.time := hab.1
    have hxytime : x.time = y.time := hxy.1
    by_cases hc : a.time ≤ x.time
    · rw [if_pos hc, if_pos (by rw [← htime, ← hxytime]; exact hc)]
      exact List.Forall₂.cons hab (List.Forall₂.cons hxy htl)
    · rw [if_neg hc, if_neg (by rw [← htime, ← hxytime]; exact hc)]
      exact List.Forall₂.cons hxy ih

theorem sortEvents_congr (l1 l2 : List Event) (h : List.Forall₂ eventRel l1 l2) :
    List.Forall₂ eventRel (sortEvents l1) (sortEvents l2) := by
  rw [sortEvents, sortEvents]
  induction h with
  | nil => exact List.Forall₂.nil
  | cons hab htl ih =>
    rw [List.insertionSort, List.insertionSort]
    exact orderedInsert_congr _ _ hab _ _ ih

theorem forall₂_filterMap_events {α : Type} (R : α → α → Prop) (p : α → Bool)
    (f : α → Event) (hp : ∀ a b, R a b → p a = p b)
    (hf : ∀ a b, R a b → eventRel (f a) (f b)) :
    ∀ l1 l2, List.Forall₂ R l1 l2 →
      List.Forall₂ eventRel ((l1.filter p).map f) ((l2.filter p).map f) := by
  intro l1 l2 h
  induction h with
  | nil => exact List.Forall₂.nil
  | cons hab htl ih =>
    rename_i a b xs ys
    rw [List.filter_cons, List.filter_cons, ← hp a b hab]
    by_cases hc : p a = true
    · rw [if_pos hc, if_pos hc, List.map_cons, List.map_cons]
      exact List.Forall₂.cons (hf a b hab) ih
    · rw [if_neg hc, if_neg hc]
      exact ih

theorem endEvents_congr (m : String) (en1 en2 : List EndRow)
    (h : List.Forall₂ typedEndRel en1 en2) :
    List.Forall₂ eventRel (endEvents m en1) (endEvents m en2) := by
  rw [endEvents, endEvents]
  refine forall₂_filterMap_events typedEndRel _ _ ?_ ?_ en1 en2 h
  · intro a b hab
    rw [hab.2.1]
  · intro a b hab
    obtain ⟨ht, hn, ho, hk, hds⟩ := hab
    exact ⟨ht, hk, by rw [ho], Or.inr hds⟩

theorem forall₂_append_events {l1 l2 u1 u2 : List Event}
    (h : List.Forall₂ eventRel l1 l2) (h' : List.Forall₂ eventRel u1 u2) :
    List.Forall₂ eventRel (l1 ++ u1) (l2 ++ u2) := by
  induction h with
  | nil => exact h'
  | cons hab htl ih => exact List.Forall₂.cons hab ih

theorem eventsFor_congr (m : String) (bg : List BeginRow) (lv : List LevelRow)
    (en1 en2 : List EndRow) (bm : List BattleMarbleRow) (bt : List BattleRow)
    (h : List.Forall₂ typedEndRel en1 en2) :
    List.Forall₂ eventRel (eventsFor m bg lv en1 bm bt)
      (eventsFor m bg lv en2 bm bt) := by
  rw [eventsFor, eventsFor]
  apply sortEvents_congr
  exact forall₂_append_events
    (forall₂_append_events
      (forall₂_append_events
        (forall₂_append_events (forall₂_eventRel_refl _) (forall₂_eventRel_refl _))
        (endEvents_congr m en1 en2 h))
      (forall₂_eventRel_refl _))
    (forall₂_eventRel_refl _)

theorem map_names_eq (mr1 mr2 : List MarbleRow)
    (h : List.Forall₂ typedMarbleRel mr1 mr2) :
    mr1.map (fun r => r.name) = mr2.map (fun r => r.name) := by
  induction h with
  | nil => rfl
  | cons hab htl ih =>
    rw [List.map_cons, List.map_cons, ih, hab.1]

theorem finalLevelOf_congr (mr1 mr2 : List MarbleRow)
    (h : List.Forall₂ typedMarbleRel mr1 mr2) (m : String) :
    finalLevelOf mr1 m = finalLevelOf mr2 m := by
  rw [finalLevelOf, finalLevelOf]
  induction h with
  | nil => rfl
  | cons hab htl ih =>
    rename_i a b xs ys
    by_cases hc : a.name = m
    · have hb : b.name = m := by rw [← hab.1]; exact hc
      rw [List.find?_cons_of_pos _ (by simpa using hc),
        List.find?_cons_of_pos _ (by simpa using hb)]
      simp [hab.2.2.2.2]
    · have hb : ¬ b.name = m := by rw [← hab.1]; exact hc
      rw [List.find?_cons_of_neg _ (by simpa using hc),
        List.find?_cons_of_neg _ (by simpa using hb)]
      exact ih

theorem forall₂_filter_all {α : Type} (R : α → α → Prop) (p q : α → Bool)
    (hp : ∀ a b, R a b → p a = p b) (hq : ∀ a b, R a b → q a = q b) :
    ∀ l1 l2, List.Forall₂ R l1 l2 → (l1.filter p).all q = (l2.filter p).all q := by
  intro l1 l2 h
  induction h with
  | nil => rfl
  | cons hab htl ih =>
    rename_i a b xs ys
    rw [List.filter_cons, List.filter_cons, ← hp a b hab]
    by_cases hc : p a = true
    · rw [if_pos hc, if_pos hc, List.all_cons, List.all_cons, ih, hq a b hab]
    · rw [if_neg hc, if_neg hc]
      exact ih

theorem rosterOk_congr (id : String) (bc : List BattleColorRow)
    (bm : List BattleMarbleRow) (mr1 mr2 : List MarbleRow)
    (h : List.Forall₂ typedMarbleRel mr1 mr2) :
    rosterOk id bc bm mr1 = rosterOk id bc bm mr2 := by
  rw [rosterOk, rosterOk]
  congr 1
  funext bmr
  exact forall₂_filter_all typedMarbleRel _ _
    (fun a b hab => by rw [hab.1]) (fun a b hab => by rw [hab.2.2.2.1]) mr1 mr2 h

theorem checkRosters_congr (bt : List BattleRow) (bc : List BattleColorRow)
    (bm : List BattleMarbleRow) (mr1 mr2 : List MarbleRow)
    (h : List.Forall₂ typedMarbleRel mr1 mr2) :
    checkRosters bt bc bm mr1 = checkRosters bt bc bm mr2 := by
  rw [checkRosters, checkRosters]
  generalize firstDedup (bt.map fun b => b.battleId) = ids
  induction ids with
  | nil => rfl
  | cons id rest ih =>
    rw [checkRostersGo, checkRostersGo, rosterOk_congr id bc bm mr1 mr2 h]
    by_cases hc : rosterOk id bc bm mr2 = true
    · rw [if_pos hc, if_pos hc]
      exact ih
    · rw [if_neg hc, if_neg hc]

theorem isOkE_true_iff {α : Type} (x : Except VError α) :
    isOkE x = true ↔ ∃ a, x = .ok a := by
  cases x <;> simp [isOkE]

theorem checkMarblesGo_congr (mr1 mr2 : List MarbleRow)
    (h : List.Forall₂ typedMarbleRel mr1 mr2) (bg : List BeginRow)
    (lv : List LevelRow) (en1 en2 : List EndRow)
    (he : List.Forall₂ typedEndRel en1 en2) (bm : List BattleMarbleRow)
    (bt : List BattleRow) :
    ∀ names, isOkE (checkMarblesGo mr1 bg lv en1 bm bt names)
      = isOkE (checkMarblesGo mr2 bg lv en2 bm bt names) := by
  intro names
  induction names with
  | nil => rfl
  | cons m rest ih =>
    rw [checkMarblesGo, checkMarblesGo, finalLevelOf_congr mr1 mr2 h m]
    cases hfl : finalLevelOf mr2 m with
    | none => rfl
    | some fl =>
      simp only
      have hcm := checkMarble_congr _ _
        (eventsFor_congr m bg lv en1 en2 bm bt he) fl m
      cases h1 : checkMarble (eventsFor m bg lv en1 bm bt) fl m with
      | error e1 =>
        rw [h1] at hcm
        cases h2 : checkMarble (eventsFor m bg lv en2 bm bt) fl m with
        | error e2 => rfl
        | ok u => rw [h2] at hcm; simp [isOkE] at hcm
      | ok u =>
        rw [h1] at hcm
        cases h2 : checkMarble (eventsFor m bg lv en2 bm bt) fl m with
        | error e2 => rw [h2] at hcm; simp [isOkE] at hcm
        | ok u2 => exact ih

theorem checkMarbles_congr (mr1 mr2 : List MarbleRow)
    (h : List.Forall₂ typedMarbleRel mr1 mr2) (bg : List BeginRow)
    (lv : List LevelRow) (en1 en2 : List EndRow)
    (he : List.Forall₂ typedEndRel en1 en2) (bm : List BattleMarbleRow)
    (bt : List BattleRow) :
    isOkE (checkMarbles mr1 bg lv en1 bm bt)
      = isOkE (checkMarbles mr2 bg lv en2 bm bt) := by
  rw [checkMarbles, checkMarbles, map_names_eq mr1 mr2 h]
  exact checkMarblesGo_congr mr1 mr2 h bg lv en1 en2 he bm bt _

/-- C10: two datasets that differ only in the Level field of end rows and
the Kills field of marble rows, all those values being non-negative
integers in both, validate or fail together: the replay never reads a death
or survival event's carried level and the kill count is never read after
its per-row non-negativity check (the two runs may differ only in the text
of the error they report, which quotes the offending event). -/
theorem mk_C10 (d1 d2 : Dataset) (h : datasetRel d1 d2) :
    isOkE (validate d1) = isOkE (validate d2) := by
  obtain ⟨hc, hmr, hbg, hlv, her, hbt, hbc, hbm⟩ := h
  unfold validate
  rw [← hc, ← hbg, ← hlv, ← hbt, ← hbc, ← hbm]
  cases h1 : validateColors d1.colors with
  | error e => rfl
  | ok colorRows =>
  simp only
  have hmrel := mapExcept_rel (coerceMarbleRow (colorRows.map fun r => r.color))
    (coerceMarbleRow (colorRows.map fun r => r.color)) typedMarbleRel marbleRowRelB
    (fun a b hab => coerceMarbleRow_congr (colorRows.map fun r => r.color) a b hab)
    d1.marbles d2.marbles hmr
  have hmrel2 : exceptListRel typedMarbleRel
      (validateMarbles (colorRows.map fun r => r.color) d1.marbles)
      (validateMarbles (colorRows.map fun r => r.color) d2.marbles) := hmrel
  clear hmrel
  cases h2 : validateMarbles (colorRows.map fun r => r.color) d1.marbles with
  | error e2 =>
    rw [h2] at hmrel2
    cases h2' : validateMarbles (colorRows.map fun r => r.color) d2.marbles with
    | error e2' => rfl
    | ok rows2 => rw [h2'] at hmrel2; exact absurd hmrel2 (by simp [exceptListRel])
  | ok marbleRows1 =>
  rw [h2] at hmrel2
  cases h2' : validateMarbles (colorRows.map fun r => r.color) d2.marbles with
  | error e2' => rw [h2'] at hmrel2; exact absurd hmrel2 (by simp [exceptListRel])
  | ok marbleRows2 =>
  rw [h2'] at hmrel2
  simp only
  rw [← map_names_eq marbleRows1 marbleRows2 hmrel2]
  cases h3 : validateBegins (marbleRows1.map fun r => r.name) d1.begins with
  | error e3 => rfl
  | ok beginRows =>
  simp only
  cases h4 : validateLevels (marbleRows1.map fun r => r.name) d1.levels with
  | error e4 => rfl
  | ok levelRows =>
  simp only
  have herel := mapExcept_rel (coerceEndRow (marbleRows1.map fun r => r.name))
    (coerceEndRow (marbleRows1.map fun r => r.name)) typedEndRel endRowRelB
    (fun a b hab => coerceEndRow_congr (marbleRows1.map fun r => r.name) a b hab)
    d1.ends d2.ends her
  have herel2 : exceptListRel typedEndRel
      (validateEnds (marbleRows1.map fun r => r.name) d1.ends)
      (validateEnds (marbleRows1.map fun r => r.name) d2.ends) := herel
  clear herel
  cases h5 : validateEnds (marbleRows1.map fun r => r.name) d1.ends with
  | error e5 =>
    rw [h5] at herel2
    cases h5' : validateEnds (marbleRows1.map fun r => r.name) d2.ends with
    | error e5' => rfl
    | ok rows2 => rw [h5'] at herel2; exact absurd herel2 (by simp [exceptListRel])
  | ok endRows1 =>
  rw [h5] at herel2
  cases h5' : validateEnds (marbleRows1.map fun r => r.name) d2.ends with
  | error e5' => rw [h5'] at herel2; exact absurd herel2 (by simp [exceptListRel])
  | ok endRows2 =>
  rw [h5'] at herel2
  simp only
  cases h6 : validateBattles d1.battles with
  | error e6 => rfl
  | ok battleRows =>
  simp only
  cases h7 : validateBattleColors (battleRows.map fun b => b.battleId)
      (colorRows.map fun r => r.color) d1.battleColors with
  | error e7 => rfl
  | ok bcRows =>
  simp only
  cases h8 : validateBattleMarbles (battleRows.map fun b => b.battleId)
      (marbleRows1.map fun r => r.name) d1.battleMarbles with
  | error e8 => rfl
  | ok bmRows =>
  simp only
  cases h9 : checkOverlap (sortBattles battleRows) with
  | error e9 => rfl
  | ok u9 =>
  simp only
  rw [← checkRosters_congr battleRows bcRows bmRows marbleRows1 marbleRows2 hmrel2]
  cases h10 : checkRosters battleRows bcRows bmRows marbleRows1 with
  | error e10 => rfl
  | ok u10 =>
  simp only
  exact checkMarbles_congr marbleRows1 marbleRows2 hmrel2 beginRows levelRows
    endRows1 endRows2 herel2 bmRows battleRows

/-- C10, witness: the sample datasets differing in an end row level (5
against 7) and a kill count (0 against 3) are related and validate
alike. -/
theorem mk_C10_witness :
    datasetRel c10A c10B ∧ isOkE (validate c10A) = isOkE (validate c10B) :=
  ⟨by unfold datasetRel; decide, mk_C10 c10A c10B (by unfold datasetRel; decide)⟩

end MKTimeline
